import Mathlib

/-!
Shallow embedding of the card-canvas engine of the CollectionManager repository:
grid math and the deterministic layout algorithm (`Grid`, source `part_013`),
the texture LOD cache (`src/rendering/LODManager.ts`), the stage/scene
controller's stacking and drag logic (`PixiStage`, source `part_004`), the
camera zoom notifications (`src/rendering/Camera.ts`), and the deck overlay
refresh (`PixiStage.updateDeckOverlays`).

JavaScript numbers are modelled as rationals (`ℚ`) where fractional values can
occur (sprite positions, zoom scales) and as `Int`/`Nat` where the source only
ever produces integers (costs, grid cells, counters).  `Math.round` is `round`
(half-up, as in JS for the values involved), `Math.floor` is `Int.floor`.
JS `Map`s (insertion-ordered, unique keys) are modelled as association lists
with `lookupA` / `setA` mirroring `Map.get` / `Map.set` (a `set` of an existing
key keeps its position; a new key is appended).
-/

namespace CollectionManager

/-- JS `Map.get`: the value stored at the first (unique) matching key. -/
def lookupA {κ β : Type} [DecidableEq κ] : List (κ × β) → κ → Option β
  | [], _ => none
  | (k, v) :: rest, key => if k = key then some v else lookupA rest key

/-- JS `Map.set`: overwrite in place if the key is present, else append. -/
def setA {κ β : Type} [DecidableEq κ] : List (κ × β) → κ → β → List (κ × β)
  | [], key, v => [(key, v)]
  | (k, w) :: rest, key, v =>
      if k = key then (k, v) :: rest else (k, w) :: setA rest key v

/-- JS `Map.delete`: remove the entry for a key. -/
def eraseA {κ β : Type} [DecidableEq κ] (m : List (κ × β)) (key : κ) :
    List (κ × β) :=
  m.filter (fun e => e.1 ≠ key)

theorem lookupA_setA_self {κ β : Type} [DecidableEq κ]
    (m : List (κ × β)) (k : κ) (v : β) : lookupA (setA m k v) k = some v := by
  induction m with
  | nil => simp [setA, lookupA]
  | cons e rest ih =>
      by_cases h : e.1 = k
      · simp [setA, h, lookupA]
      · simp [setA, h, lookupA, ih]

theorem lookupA_setA_ne {κ β : Type} [DecidableEq κ]
    (m : List (κ × β)) (k k' : κ) (v : β) (h : k' ≠ k) :
    lookupA (setA m k v) k' = lookupA m k' := by
  have hkk : ¬ k = k' := fun h' => h h'.symm
  induction m with
  | nil => simp [setA, lookupA, hkk]
  | cons e rest ih =>
      by_cases he : e.1 = k
      · subst he
        simp [setA, lookupA, hkk]
      · by_cases he' : e.1 = k'
        · simp [setA, he, lookupA, he', h]
        · simp [setA, he, lookupA, he', ih]

theorem lookupA_eraseA_self {κ β : Type} [DecidableEq κ]
    (m : List (κ × β)) (k : κ) : lookupA (eraseA m k) k = none := by
  induction m with
  | nil => simp [eraseA, lookupA]
  | cons e rest ih =>
      by_cases h : e.1 = k
      · simpa [eraseA, h, lookupA] using ih
      · simpa [eraseA, h, lookupA] using ih

theorem lookupA_eraseA_ne {κ β : Type} [DecidableEq κ]
    (m : List (κ × β)) (k k' : κ) (h : k' ≠ k) :
    lookupA (eraseA m k) k' = lookupA m k' := by
  have hkk : ¬ k = k' := fun h' => h h'.symm
  induction m with
  | nil => simp [eraseA, lookupA]
  | cons e rest ih =>
      by_cases he : e.1 = k
      · simpa [eraseA, List.filter_cons, he, lookupA, hkk] using ih
      · by_cases he' : e.1 = k'
        · simp [eraseA, List.filter_cons, he, lookupA, he', h]
        · simpa [eraseA, List.filter_cons, he, lookupA, he'] using ih

theorem lookupA_append {κ β : Type} [DecidableEq κ]
    (m₁ m₂ : List (κ × β)) (k : κ) :
    lookupA (m₁ ++ m₂) k =
      (match lookupA m₁ k with
       | some v => some v
       | none => lookupA m₂ k) := by
  induction m₁ with
  | nil => simp [lookupA]
  | cons e rest ih =>
      by_cases h : e.1 = k
      · simp [lookupA, h]
      · simp [lookupA, h, ih]

theorem keys_setA_of_mem {κ β : Type} [DecidableEq κ]
    (m : List (κ × β)) (k : κ) (v : β) (h : lookupA m k ≠ none) :
    (setA m k v).map Prod.fst = m.map Prod.fst := by
  induction m with
  | nil => simp [lookupA] at h
  | cons e rest ih =>
      by_cases he : e.1 = k
      · simp [setA, he]
      · simp [lookupA, he] at h
        simp [setA, he, ih h]

/-! ## Grid math (source: `Grid` module, `part_013`)

`GRID_UNIT = 55`, portrait cards occupy 2×3 grid cells, landscape 3×2,
stack offset is 10 grid units (550 px).  `snapToGrid` uses `Math.round`,
`pixelsToGrid` uses `Math.floor`. -/

def GRID_UNIT : ℚ := 55

def STACK_OFFSET_UNITS : ℚ := 10

def STACK_OFFSET : ℚ := STACK_OFFSET_UNITS * GRID_UNIT

def GROUP_GAP_UNITS : Nat := 4

def SUBGROUP_GAP_UNITS : Nat := 1

/-- `snapToGrid(x, y)`: round each coordinate to the nearest grid multiple. -/
def snapToGrid (x y : ℚ) : ℚ × ℚ :=
  ((round (x / GRID_UNIT) : ℤ) * GRID_UNIT, (round (y / GRID_UNIT) : ℤ) * GRID_UNIT)

/-- `pixelsToGrid(x, y)`: floor-divide each coordinate by the grid unit. -/
def pixelsToGrid (x y : ℚ) : ℤ × ℤ :=
  (⌊x / GRID_UNIT⌋, ⌊y / GRID_UNIT⌋)

/-! ## Layout data model (source: `Grid` module, `part_013`) -/

inductive ThresholdGroup : Type
  | air | earth | fire | water | multiple | none
  deriving DecidableEq, Repr

inductive CardType : Type
  | Minion | Magic | Aura | Artifact | Site | Avatar
  deriving DecidableEq, Repr

/-- One element of `LayoutConfig.cards`. -/
structure LayoutCard : Type where
  name : String
  type : CardType
  thresholdGroup : ThresholdGroup
  cost : Int
  isLandscape : Bool
  primarySet : Option String
  rarity : Option String
  deriving DecidableEq, Repr

/-- One element of the `CardLayoutInfo[]` output; `x`,`y` in pixels. -/
structure CardLayoutInfo : Type where
  name : String
  x : Int
  y : Int
  isLandscape : Bool
  thresholdGroup : ThresholdGroup
  type : CardType
  cost : Int
  deriving DecidableEq, Repr

def THRESHOLD_GROUP_ORDER : List ThresholdGroup :=
  [.air, .earth, .fire, .water, .multiple, .none]

def TYPE_ORDER : List CardType := [.Minion, .Magic, .Aura, .Artifact, .Site]

def AVATAR_SET_ORDER : List String :=
  ["Alpha", "Beta", "Arthurian Legends", "Dragonlord", "Gothic", "Promotional"]

/-- `RARITY_ORDER[rarity ?? 'None'] ?? 0`. -/
def rarityOrderIdx (rarity : Option String) : Nat :=
  match rarity.getD "None" with
  | "None" => 0
  | "Ordinary" => 1
  | "Exceptional" => 2
  | "Elite" => 3
  | "Unique" => 4
  | _ => 0

/-- `getAvatarSetIndex`: position in `AVATAR_SET_ORDER`, or the list length
for a missing / unlisted set (JS `indexOf` returning `-1` is mapped to the
length, as in the source's `index >= 0 ? index : AVATAR_SET_ORDER.length`). -/
def getAvatarSetIndex (setName : Option String) : Nat :=
  match setName with
  | Option.none => AVATAR_SET_ORDER.length
  | Option.some s => AVATAR_SET_ORDER.indexOf s

/-- Boolean `≤` induced by the JS comparator `(a, b) => a.cost - b.cost`. -/
def costLe (a b : LayoutCard) : Bool := a.cost ≤ b.cost

/-- Boolean `≤` induced by the avatar comparator (set order, then rarity). -/
def avatarLe (a b : LayoutCard) : Bool :=
  let sa := getAvatarSetIndex a.primarySet
  let sb := getAvatarSetIndex b.primarySet
  if sa ≠ sb then sa < sb
  else rarityOrderIdx a.rarity ≤ rarityOrderIdx b.rarity

/-- `groupCards`: nested insertion-ordered maps `group → type → cards`,
built by pushing each card onto its bucket in input order.  Modelled as the
bucket-contents function; `groupCards_eq_filter` states the denotation. -/
def groupCards (cards : List LayoutCard) :
    ThresholdGroup → CardType → List LayoutCard :=
  cards.foldl
    (fun m c g t =>
      if c.thresholdGroup = g ∧ c.type = t then m g t ++ [c] else m g t)
    (fun _ _ => [])

theorem groupCards_eq_filter (cards : List LayoutCard)
    (g : ThresholdGroup) (t : CardType) :
    groupCards cards g t =
      cards.filter (fun c => decide (c.thresholdGroup = g ∧ c.type = t)) := by
  suffices h : ∀ (m : ThresholdGroup → CardType → List LayoutCard),
      (cards.foldl
        (fun m c g t =>
          if c.thresholdGroup = g ∧ c.type = t then m g t ++ [c] else m g t)
        m) g t
        = m g t ++
          cards.filter (fun c => decide (c.thresholdGroup = g ∧ c.type = t)) by
    simpa [groupCards] using h (fun _ _ => [])
  induction cards with
  | nil => intro m; simp
  | cons c rest ih =>
      intro m
      by_cases hc : c.thresholdGroup = g ∧ c.type = t
      · simp only [List.foldl_cons, List.filter_cons]
        rw [ih]
        simp [hc]
      · simp only [List.foldl_cons, List.filter_cons]
        rw [ih]
        by_cases hg : c.thresholdGroup = g
        · have ht : ¬ c.type = t := fun h' => hc ⟨hg, h'⟩
          simp [hg, ht, hc]
        · simp [hg, hc]

/-- Cards-per-row for a bucket (`CARDS_PER_ROW.SITE = 8`, `.SPELL = 12`). -/
def cardsPerRowFor (isLandscape : Bool) : Nat := if isLandscape then 8 else 12

/-- Grid-cell footprint (`CARD_CELLS`): landscape 3×2, portrait 2×3. -/
def cardCellSize (isLandscape : Bool) : Nat × Nat :=
  if isLandscape then (3, 2) else (2, 3)

/-- The body of the per-bucket `for` loop: emits one `CardLayoutInfo` per
card, walking the row-major grid from index `i`. -/
def bucketEntries (gx gy perRow cw ch : Nat) (isL : Bool) :
    Nat → List LayoutCard → List CardLayoutInfo
  | _, [] => []
  | i, card :: rest =>
      { name := card.name
        x := ((gx + (i % perRow) * cw) : Nat) * 55
        y := ((gy + (i / perRow) * ch) : Nat) * 55
        isLandscape := isL
        thresholdGroup := card.thresholdGroup
        type := card.type
        cost := card.cost } :: bucketEntries gx gy perRow cw ch isL (i + 1) rest

/-- Running `maxGroupGridWidth` contribution of one bucket:
`max` over the bucket of `(col + 1) * cellSize.width`. -/
def bucketMaxRight (len perRow cw : Nat) : Nat :=
  ((List.range len).map (fun i => (i % perRow + 1) * cw)).foldl max 0

/-- The inner `for (const type of TYPE_ORDER)` loop of `calculateCardLayout`:
threads `(entries, currentGridY, maxGroupGridWidth)` through the type buckets
of one threshold group. -/
def layoutTypesStep (grouped : ThresholdGroup → CardType → List LayoutCard)
    (g : ThresholdGroup) (gx : Nat)
    (acc : List CardLayoutInfo × Nat × Nat) (t : CardType) :
    List CardLayoutInfo × Nat × Nat :=
  let es := acc.1
  let gy := acc.2.1
  let maxW := acc.2.2
  let typeCards := grouped g t
  if typeCards.isEmpty then acc
  else
    let sorted := typeCards.mergeSort costLe
    let isL : Bool := t = CardType.Site
    let perRow := cardsPerRowFor isL
    let cell := cardCellSize isL
    let rows := (sorted.length + perRow - 1) / perRow
    (es ++ bucketEntries gx gy perRow cell.1 cell.2 isL 0 sorted,
     gy + rows * cell.2 + SUBGROUP_GAP_UNITS,
     max maxW (bucketMaxRight sorted.length perRow cell.1))

/-- All type buckets of one threshold group, plus the group's max width. -/
def layoutGroup (grouped : ThresholdGroup → CardType → List LayoutCard)
    (g : ThresholdGroup) (gx : Nat) : List CardLayoutInfo × Nat :=
  let r := TYPE_ORDER.foldl (layoutTypesStep grouped g gx) ([], 0, 0)
  (r.1, r.2.2)

/-- The outer `for (const thresholdGroup of THRESHOLD_GROUP_ORDER)` loop:
threads `(entries, currentGridX)`; a group with no cards is skipped
(`grouped.get(g)` undefined or of size 0 in the source). -/
def layoutGroupsStep (nonAvatars : List LayoutCard)
    (grouped : ThresholdGroup → CardType → List LayoutCard)
    (acc : List CardLayoutInfo × Nat) (g : ThresholdGroup) :
    List CardLayoutInfo × Nat :=
  if nonAvatars.any (fun c => decide (c.thresholdGroup = g)) then
    let r := layoutGroup grouped g acc.2
    (acc.1 ++ r.1, acc.2 + r.2 + GROUP_GAP_UNITS)
  else acc

/-- Avatar row: sorted by set order then rarity, 12 per row, portrait cells,
placed to the right of all threshold groups at `gx`. -/
def avatarEntries (gx : Nat) (avatars : List LayoutCard) :
    List CardLayoutInfo :=
  let sorted := avatars.mergeSort avatarLe
  (List.range sorted.length).zip sorted |>.map (fun p =>
    { name := p.2.name
      x := ((gx + (p.1 % 12) * 2) : Nat) * 55
      y := ((p.1 / 12) * 3 : Nat) * 55
      isLandscape := false
      thresholdGroup := p.2.thresholdGroup
      type := CardType.Avatar
      cost := p.2.cost })

/-- `calculateCardLayout` (source `part_013`): partition into avatars and
non-avatars, group non-avatars by threshold group and type, sort each type
bucket by cost (stable JS sort), lay buckets out row-major, then append the
avatar row. -/
def calculateCardLayout (cards : List LayoutCard) : List CardLayoutInfo :=
  let avatars := cards.filter (fun c => decide (c.type = CardType.Avatar))
  let nonAvatars := cards.filter (fun c => decide (c.type ≠ CardType.Avatar))
  let grouped := groupCards nonAvatars
  let r := THRESHOLD_GROUP_ORDER.foldl (layoutGroupsStep nonAvatars grouped)
    ([], 0)
  r.1 ++ avatarEntries r.2 avatars

/-! ## Texture LOD cache (source: `src/rendering/LODManager.ts`)

`cardNameToSlug` chains: Unicode NFD normalization with combining-mark
removal (`normalizeToAscii`), lowercasing, apostrophe removal, replacement of
hyphen/whitespace runs by `_`, removal of other characters, collapsing of `_`
runs, and trimming of the leading/trailing underscore.  The NFD step is
modelled by a character-wise decomposition table covering the precomposed
Latin letters that occur in card names (all other characters decompose to
themselves, as in NFD). -/

/-- NFD decomposition, restricted to precomposed Latin letters. -/
def nfdDecompose (c : Char) : List Char :=
  let grave : Char := Char.ofNat 0x300
  let acute : Char := Char.ofNat 0x301
  let circ : Char := Char.ofNat 0x302
  let tilde : Char := Char.ofNat 0x303
  let diaer : Char := Char.ofNat 0x308
  let ring : Char := Char.ofNat 0x30A
  let cedil : Char := Char.ofNat 0x327
  match c with
  | 'à' => ['a', grave] | 'á' => ['a', acute] | 'â' => ['a', circ]
  | 'ã' => ['a', tilde] | 'ä' => ['a', diaer] | 'å' => ['a', ring]
  | 'è' => ['e', grave] | 'é' => ['e', acute] | 'ê' => ['e', circ]
  | 'ë' => ['e', diaer]
  | 'ì' => ['i', grave] | 'í' => ['i', acute] | 'î' => ['i', circ]
  | 'ï' => ['i', diaer]
  | 'ò' => ['o', grave] | 'ó' => ['o', acute] | 'ô' => ['o', circ]
  | 'õ' => ['o', tilde] | 'ö' => ['o', diaer]
  | 'ù' => ['u', grave] | 'ú' => ['u', acute] | 'û' => ['u', circ]
  | 'ü' => ['u', diaer]
  | 'ñ' => ['n', tilde] | 'ç' => ['c', cedil] | 'ý' => ['y', acute]
  | 'À' => ['A', grave] | 'Á' => ['A', acute] | 'Â' => ['A', circ]
  | 'Ã' => ['A', tilde] | 'Ä' => ['A', diaer] | 'Å' => ['A', ring]
  | 'È' => ['E', grave] | 'É' => ['E', acute] | 'Ê' => ['E', circ]
  | 'Ë' => ['E', diaer]
  | 'Ì' => ['I', grave] | 'Í' => ['I', acute] | 'Î' => ['I', circ]
  | 'Ï' => ['I', diaer]
  | 'Ò' => ['O', grave] | 'Ó' => ['O', acute] | 'Ô' => ['O', circ]
  | 'Õ' => ['O', tilde] | 'Ö' => ['O', diaer]
  | 'Ù' => ['U', grave] | 'Ú' => ['U', acute] | 'Û' => ['U', circ]
  | 'Ü' => ['U', diaer]
  | 'Ñ' => ['N', tilde] | 'Ç' => ['C', cedil]
  | other => [other]

/-- Combining diacritical marks, the range removed by the source's
`replace(/[̀-ͯ]/g, '')`. -/
def isCombiningMark (c : Char) : Bool :=
  0x300 ≤ c.toNat && c.toNat ≤ 0x36F

/-- `normalizeToAscii`: NFD-decompose, then strip combining marks. -/
def normalizeToAscii (s : List Char) : List Char :=
  ((s.map nfdDecompose).flatten).filter (fun c => !isCombiningMark c)

/-- Whitespace characters matched by the regex class `\s` (the common ones). -/
def isJsWhitespace (c : Char) : Bool :=
  c = ' ' || c = '\t' || c = '\n' || c = '\x0d' ||
  c = Char.ofNat 0x0B || c = Char.ofNat 0x0C || c = Char.ofNat 0xA0

/-- Characters kept by `replace(/[^a-z0-9_]/g, '')`. -/
def isSlugChar (c : Char) : Bool :=
  ('a' ≤ c && c ≤ 'z') || ('0' ≤ c && c ≤ '9') || c = '_'

/-- Replace each maximal run of characters matched by `p` with `r`
(regex `replace(/p+/g, r)`). -/
def collapseRunsAux (p : Char → Bool) (r : Char) :
    List Char → Bool → List Char
  | [], _ => []
  | c :: cs, inRun =>
      if p c then
        if inRun then collapseRunsAux p r cs true
        else r :: collapseRunsAux p r cs true
      else c :: collapseRunsAux p r cs false

def collapseRuns (p : Char → Bool) (r : Char) (l : List Char) : List Char :=
  collapseRunsAux p r l false

/-- The regex `replace(/^_|_$/g, '')`: one leading and one trailing
underscore are removed (it runs after `_` runs have been collapsed). -/
def dropOneLeadingUnderscore : List Char → List Char
  | '_' :: rest => rest
  | l => l

def trimOneUnderscore (l : List Char) : List Char :=
  (dropOneLeadingUnderscore (dropOneLeadingUnderscore l).reverse).reverse

/-- JS `String.trim`: strip whitespace from both ends. -/
def trimWhitespace (l : List Char) : List Char :=
  ((l.dropWhile isJsWhitespace).reverse.dropWhile isJsWhitespace).reverse

/-- `cardNameToSlug`: the normalization pipeline of the source. -/
def cardNameToSlug (cardName : String) : String :=
  let step1 := normalizeToAscii cardName.toList
  let step2 := step1.map Char.toLower
  let step3 := step2.filter (fun c => !(c = '\'' || c = '’'))
  let step4 := collapseRuns (fun c => c = '-' || isJsWhitespace c) '_' step3
  let step5 := step4.filter isSlugChar
  let step6 := collapseRuns (fun c => c = '_') '_' step5
  let step7 := trimOneUnderscore step6
  String.mk (trimWhitespace step7)

/-- The key under which `getTexture` and `getTextureSync` cache a request:
`cardNameOrSlug.includes('_') ? cardNameOrSlug : cardNameToSlug(cardNameOrSlug)`. -/
def getTextureSlugArg (cardNameOrSlug : String) : String :=
  if cardNameOrSlug.toList.contains '_' then cardNameOrSlug
  else cardNameToSlug cardNameOrSlug

/-- The key on which `preloadTextures` filters its candidates:
always `cardNameToSlug(name)`. -/
def preloadFilterSlug (name : String) : String := cardNameToSlug name

/-! ### LOD cache state machine

The manager's mutable state (`cache`, `loadingPromises`, `failedLoads`) plus
instrumentation: a per-slug count of underlying loader invocations (the
spec's "load counter on a fake loader") and a per-slug count of
`console.warn` failure logs.  JS runs the synchronous prologue of
`getTexture` atomically up to its first `await`; completion / rejection of a
load runs its handlers atomically.  Those atomic segments are the steps. -/

structure LODState : Type where
  cache : List (String × Nat)
  loading : List (String × Nat)
  failed : List String
  loadCount : List (String × Nat)
  logCount : List (String × Nat)
  nextPromise : Nat
  deriving DecidableEq, Repr

def LODState.initial : LODState :=
  { cache := [], loading := [], failed := [], loadCount := [], logCount := []
    nextPromise := 0 }

def countOf (m : List (String × Nat)) (k : String) : Nat :=
  (lookupA m k).getD 0

def bumpCount (m : List (String × Nat)) (k : String) : List (String × Nat) :=
  setA m k (countOf m k + 1)

/-- What the synchronous part of one `getTexture` call produces. -/
inductive GetTexOutcome : Type
  | placeholder
  | cached (tex : Nat)
  | awaitExisting (p : Nat)
  | started (p : Nat)
  deriving DecidableEq, Repr

/-- The synchronous prologue of `getTexture(cardNameOrSlug, lod)`: failed
keys short-circuit to the placeholder, cached keys return the cached
texture, in-flight keys return the stored promise, otherwise a new load is
started and recorded in `loadingPromises` (and counted). -/
def getTextureStep (cardNameOrSlug : String) (s : LODState) :
    GetTexOutcome × LODState :=
  let slug := getTextureSlugArg cardNameOrSlug
  if slug ∈ s.failed then (.placeholder, s)
  else
    match lookupA s.cache slug with
    | some tex => (.cached tex, s)
    | Option.none =>
        match lookupA s.loading slug with
        | some p => (.awaitExisting p, s)
        | Option.none =>
            let p := s.nextPromise
            (.started p,
             { s with loading := setA s.loading slug p
                      loadCount := bumpCount s.loadCount slug
                      nextPromise := p + 1 })

/-- `getTextureSync(cardNameOrSlug, lod)`: pure cache lookup. -/
def getTextureSync (cardNameOrSlug : String) (s : LODState) : Option Nat :=
  lookupA s.cache (getTextureSlugArg cardNameOrSlug)

/-- Events of one cache lifetime: a `getTexture` call's synchronous
prologue, a load resolving with a texture, or a load rejecting.  A
rejection runs `loadTexture`'s catch (log once per not-yet-failed slug) and
then `getTexture`'s catch/finally (mark failed, drop the promise); a
resolution runs `getTexture`'s success path (cache, drop the promise). -/
inductive LODEvent : Type
  | call (cardNameOrSlug : String)
  | settleSuccess (slug : String) (tex : Nat)
  | settleFail (slug : String)
  deriving DecidableEq, Repr

def lodStep (s : LODState) : LODEvent → LODState
  | .call key => (getTextureStep key s).2
  | .settleSuccess slug tex =>
      match lookupA s.loading slug with
      | Option.none => s
      | some _ =>
          { s with cache := setA s.cache slug tex
                   loading := eraseA s.loading slug }
  | .settleFail slug =>
      match lookupA s.loading slug with
      | Option.none => s
      | some _ =>
          { s with
              logCount :=
                if slug ∈ s.failed then s.logCount
                else bumpCount s.logCount slug
              failed := slug :: s.failed
              loading := eraseA s.loading slug }

def lodRun (events : List LODEvent) : LODState :=
  events.foldl lodStep LODState.initial

/-! ### `preloadTextures` worker pool (source: `LODManager.preloadTextures`)

`CONCURRENT_LOADS = 8`, `PRELOAD_BATCH_SIZE = 20`.  The filtered candidate
list is processed in batches of 20; per batch, `min(8, batch.length)`
copies of `loadNext` run as coroutines over a shared `batchIndex` /
`activeLoads`, firing `getTexture` without awaiting it (`activeLoads` is
decremented in a `finally` when the load settles).  `Promise.all` of the
worker promises gates the next batch.

Modelled for the spec's fake-loader scenario: every candidate is fresh and
distinct, so each fire is one underlying load, in flight until its settle
event.  Each machine step is one atomic JS segment:
`fire` is a worker's no-await check-and-fire segment, `exitWorker` a
worker's loop exit, `settleCur`/`settleOld` a load settling (from the
current / an earlier batch — an earlier batch's settle decrements that
batch's dead `activeLoads` closure variable, which nothing reads), and
`nextBatch` the `Promise.all` resolution starting the next batch, which is
enabled as soon as every worker has exited, whether or not the batch's
loads have settled. -/

def CONCURRENT_LOADS : Nat := 8

def PRELOAD_BATCH_SIZE : Nat := 20

/-- Sizes of the slices `toLoad.slice(i, i + 20)`; structural recursion on
a fuel argument (each slice removes at least one key, so `n` steps
suffice). -/
def batchSizesAux : Nat → Nat → List Nat
  | _, 0 => []
  | 0, n + 1 => [n + 1]
  | fuel + 1, n + 1 =>
      if n + 1 ≤ PRELOAD_BATCH_SIZE then [n + 1]
      else PRELOAD_BATCH_SIZE :: batchSizesAux fuel (n + 1 - PRELOAD_BATCH_SIZE)

def batchSizes (n : Nat) : List Nat := batchSizesAux n n

structure PreloadState : Type where
  pending : List Nat
  batchLen : Nat
  batchIndex : Nat
  activeLoads : Nat
  workersLeft : Nat
  inFlightCur : Nat
  inFlightOld : Nat
  peak : Nat
  finished : Bool
  deriving DecidableEq, Repr

def initPreload (n : Nat) : PreloadState :=
  match batchSizes n with
  | [] =>
      { pending := [], batchLen := 0, batchIndex := 0, activeLoads := 0
        workersLeft := 0, inFlightCur := 0, inFlightOld := 0, peak := 0
        finished := true }
  | b :: rest =>
      { pending := rest, batchLen := b, batchIndex := 0, activeLoads := 0
        workersLeft := min CONCURRENT_LOADS b, inFlightCur := 0
        inFlightOld := 0, peak := 0, finished := false }

inductive PoolEvent : Type
  | fire | exitWorker | settleCur | settleOld | nextBatch
  deriving DecidableEq, Repr

/-- One atomic scheduler step; an event whose guard does not hold is a
no-op (that schedule is not possible, e.g. a worker that sees
`activeLoads >= CONCURRENT_LOADS` merely sleeps). -/
def poolStep (s : PreloadState) : PoolEvent → PreloadState
  | .fire =>
      if !s.finished && s.batchIndex < s.batchLen &&
          s.activeLoads < CONCURRENT_LOADS && 0 < s.workersLeft then
        { s with batchIndex := s.batchIndex + 1
                 activeLoads := s.activeLoads + 1
                 inFlightCur := s.inFlightCur + 1
                 peak := max s.peak (s.inFlightCur + 1 + s.inFlightOld) }
      else s
  | .exitWorker =>
      if !s.finished && s.batchLen ≤ s.batchIndex && 0 < s.workersLeft then
        { s with workersLeft := s.workersLeft - 1 }
      else s
  | .settleCur =>
      if 0 < s.inFlightCur then
        { s with inFlightCur := s.inFlightCur - 1
                 activeLoads := s.activeLoads - 1 }
      else s
  | .settleOld =>
      if 0 < s.inFlightOld then { s with inFlightOld := s.inFlightOld - 1 }
      else s
  | .nextBatch =>
      if !s.finished && s.workersLeft = 0 then
        match s.pending with
        | [] => { s with finished := true }
        | b :: rest =>
            { s with pending := rest, batchLen := b, batchIndex := 0
                     activeLoads := 0
                     workersLeft := min CONCURRENT_LOADS b
                     inFlightOld := s.inFlightOld + s.inFlightCur
                     inFlightCur := 0 }
      else s

/-- Run `preloadTextures` on `n` fresh distinct keys under a schedule. -/
def poolRun (n : Nat) (schedule : List PoolEvent) : PreloadState :=
  schedule.foldl poolStep (initPreload n)

/-! ## Stage state: stacking and card dragging (source: `PixiStage`,
`part_004`)

Per-card data mirrors `CardSpriteData`: the sprite's live position, its
z-index, the cached axis-aligned `bounds`, the `basePosition` (position
without stack offset), the `gridKey` (the string `"x,y"`, modelled as the
pair), and the orientation from the layout.  `cardSprites` and `cardStacks`
are insertion-ordered maps. -/

structure Bounds : Type where
  left : ℚ
  top : ℚ
  right : ℚ
  bottom : ℚ
  deriving DecidableEq, Repr

structure CardData : Type where
  x : ℚ
  y : ℚ
  zIndex : Nat
  isLandscape : Bool
  baseX : ℚ
  baseY : ℚ
  gridKey : ℤ × ℤ
  bounds : Bounds
  deriving DecidableEq, Repr

/-- `CARD_SIZE` width/height for the orientation (landscape 165×110,
portrait 110×165). -/
def cardPixelSize (isLandscape : Bool) : ℚ × ℚ :=
  if isLandscape then (165, 110) else (110, 165)

/-- Bounds cached from a sprite position (`updateCardBounds` and the inline
bounds updates). -/
def boundsFor (x y : ℚ) (isLandscape : Bool) : Bounds :=
  let size := cardPixelSize isLandscape
  { left := x, top := y, right := x + size.1, bottom := y + size.2 }

abbrev SpriteMap : Type := List (String × CardData)

abbrev StackMap : Type := List ((ℤ × ℤ) × List String)

structure StageState : Type where
  cardSprites : SpriteMap
  cardStacks : StackMap
  draggedCards : List String
  isDragging : Bool
  deriving DecidableEq, Repr

/-- The signed stack offset of index `i` in a stack of `stackSize` cards:
`i * STACK_OFFSET - totalOffset / 2`. -/
def stackIndexOffset (i stackSize : Nat) : ℚ :=
  (i : ℚ) * STACK_OFFSET - ((stackSize : ℚ) - 1) * STACK_OFFSET / 2

/-- The update one iteration of the `applyStackOffsets` loop performs on a
found card: position at base plus the signed vertical offset (negated for
Site/landscape cards), z-index `i`, bounds refreshed. -/
def offsetUpdate (d : CardData) (i stackSize : Nat) : CardData :=
  let indexOffset := stackIndexOffset i stackSize
  let yOffset := if d.isLandscape then -indexOffset else indexOffset
  { d with x := d.baseX, y := d.baseY + yOffset, zIndex := i
           bounds := boundsFor d.baseX (d.baseY + yOffset) d.isLandscape }

/-- The `for (let i = 0; ...)` loop of `applyStackOffsets` for stacks of
size > 1; missing cards are skipped. -/
def applyOffsetsLoop (stackSize : Nat) :
    Nat → List String → SpriteMap → SpriteMap
  | _, [], sp => sp
  | i, name :: rest, sp =>
      let sp' :=
        match lookupA sp name with
        | Option.none => sp
        | some d => setA sp name (offsetUpdate d i stackSize)
      applyOffsetsLoop stackSize (i + 1) rest sp'

/-- `applyStackOffsets(cardNames)`: a single card is reset to its base
position with z-index 0; a larger stack is spread by signed offsets
centered on the base position. -/
def applyStackOffsets (sp : SpriteMap) (cardNames : List String) :
    SpriteMap :=
  if cardNames.length ≤ 1 then
    match cardNames with
    | [] => sp
    | name :: _ =>
        match lookupA sp name with
        | Option.none => sp
        | some d =>
            setA sp name
              { d with x := d.baseX, y := d.baseY, zIndex := 0
                       bounds := boundsFor d.baseX d.baseY d.isLandscape }
  else applyOffsetsLoop cardNames.length 0 cardNames sp

/-- The grouping loop of `rebuildCardStacks`: push every sprite's name onto
the stack of its grid key, in sprite-map order (a fresh key is appended). -/
def groupByGridKey (sp : SpriteMap) : StackMap :=
  sp.foldl
    (fun acc e =>
      match lookupA acc e.2.gridKey with
      | Option.none => acc ++ [(e.2.gridKey, [e.1])]
      | some names => setA acc e.2.gridKey (names ++ [e.1]))
    []

/-- `rebuildCardStacks`: clear and regroup the stacks, then apply offsets
to every stack. -/
def rebuildCardStacks (s : StageState) : StageState :=
  let newStacks := groupByGridKey s.cardSprites
  let sprites := newStacks.foldl (fun sp e => applyStackOffsets sp e.2)
    s.cardSprites
  { s with cardStacks := newStacks, cardSprites := sprites }

/-- The per-card update of `endCardDrag`: snap the sprite to the grid,
reset the base position and bounds, recompute the grid key. -/
def snapUpdate (d : CardData) : CardData :=
  let snapped := snapToGrid d.x d.y
  { d with x := snapped.1, y := snapped.2
           baseX := snapped.1, baseY := snapped.2
           bounds := boundsFor snapped.1 snapped.2 d.isLandscape
           gridKey := pixelsToGrid snapped.1 snapped.2 }

/-- The snapping loop of `endCardDrag` over the dragged-card set. -/
def snapDragged (names : List String) (sp : SpriteMap) : SpriteMap :=
  names.foldl
    (fun sp name =>
      match lookupA sp name with
      | Option.none => sp
      | some d => setA sp name (snapUpdate d))
    sp

/-- `endCardDrag`: snap every dragged card, then rebuild all stacks and
clear the drag state. -/
def endCardDrag (s : StageState) : StageState :=
  let sprites := snapDragged s.draggedCards s.cardSprites
  let s1 := rebuildCardStacks { s with cardSprites := sprites }
  { s1 with draggedCards := [], isDragging := false }

/-- `bringCardToFront(cardName)`: if the card sits below the top of a stack
of size > 1, splice it out, push it on top, and re-apply the stack's
offsets. -/
def bringCardToFront (s : StageState) (cardName : String) : StageState :=
  match lookupA s.cardSprites cardName with
  | Option.none => s
  | some d =>
      match lookupA s.cardStacks d.gridKey with
      | Option.none => s
      | some stack =>
          if stack.length ≤ 1 then s
          else
            match stack.findIdx? (fun n => n = cardName) with
            | Option.none => s
            | some index =>
                if index < stack.length - 1 then
                  let newStack := stack.eraseIdx index ++ [cardName]
                  { s with
                      cardStacks := setA s.cardStacks d.gridKey newStack
                      cardSprites := applyStackOffsets s.cardSprites newStack }
                else s

/-! ## Camera zoom notifications (source: `src/rendering/Camera.ts`)

`currentZoom` is the camera's stored zoom; `handleZoomChange` is the
handler of the viewport's `zoomed` event and is equality-gated;
`fitToContent` computes the clamped target scale, stores it, starts the
animation and then calls `onZoomChange` unconditionally.  The second
component of each result lists the zoom values passed to `onZoomChange`. -/

def CAMERA_MIN_ZOOM : ℚ := 1 / 50

def CAMERA_MAX_ZOOM : ℚ := 3 / 2

structure CameraState : Type where
  currentZoom : ℚ
  screenWidth : ℚ
  screenHeight : ℚ
  deriving DecidableEq, Repr

def handleZoomChange (s : CameraState) (newZoom : ℚ) :
    CameraState × List ℚ :=
  if newZoom ≠ s.currentZoom then
    ({ s with currentZoom := newZoom }, [newZoom])
  else (s, [])

structure CameraBounds : Type where
  left : ℚ
  top : ℚ
  right : ℚ
  bottom : ℚ
  deriving DecidableEq, Repr

def fitToContent (s : CameraState) (bounds : CameraBounds) (padding : ℚ) :
    CameraState × List ℚ :=
  let width := bounds.right - bounds.left + padding * 2
  let height := bounds.bottom - bounds.top + padding * 2
  let scaleX := s.screenWidth / width
  let scaleY := s.screenHeight / height
  let scale := min (min scaleX scaleY) CAMERA_MAX_ZOOM
  let clampedScale := max scale CAMERA_MIN_ZOOM
  ({ s with currentZoom := clampedScale }, [clampedScale])

/-! ## Deck overlay refresh (source: `PixiStage.updateDeckOverlays`,
`part_004` and `src/rendering/PixiStage.ts`) -/

structure DeckCard : Type where
  name : String
  quantity : Int
  deriving DecidableEq, Repr

structure DeckBoards : Type where
  mainboard : List DeckCard
  sideboard : List DeckCard
  avatar : List DeckCard
  maybeboard : List DeckCard
  deriving DecidableEq, Repr

structure CollectionItem : Type where
  name : String
  quantity : Int
  deriving DecidableEq, Repr

inductive QuantityColor : Type
  | white | black | red
  deriving DecidableEq, Repr

/-- The `deckQuantities` map: quantities accumulated over the mainboard,
sideboard and avatar boards (maybeboard excluded). -/
def deckQuantities (deck : Option DeckBoards) : List (String × Int) :=
  match deck with
  | Option.none => []
  | some b =>
      (b.mainboard ++ b.sideboard ++ b.avatar).foldl
        (fun m c => setA m c.name ((lookupA m c.name).getD 0 + c.quantity))
        []

/-- The `collectionQuantities` map (later entries overwrite earlier). -/
def collectionQuantities (collection : List CollectionItem) :
    List (String × Int) :=
  collection.foldl (fun m i => setA m i.name i.quantity) []

/-- The per-sprite color logic of `updateDeckOverlays`. -/
def overlayColorFor (deckQty collectionQty : Int) (hasCollection : Bool) :
    QuantityColor :=
  if hasCollection && decide (0 < deckQty) then
    if collectionQty < deckQty then .red
    else if collectionQty = 0 then .black
    else .white
  else .white

/-- `updateDeckOverlays`: the `(quantity, quantityColor)` state pushed into
each sprite, in sprite order. -/
def updateDeckOverlays (spriteNames : List String)
    (deck : Option DeckBoards) (collection : List CollectionItem) :
    List (String × Int × QuantityColor) :=
  let dq := deckQuantities deck
  let cq := collectionQuantities collection
  let hasCollection : Bool := decide (0 < collection.length)
  spriteNames.map (fun name =>
    let deckQty := (lookupA dq name).getD 0
    let collectionQty := (lookupA cq name).getD 0
    (name, deckQty, overlayColorFor deckQty collectionQty hasCollection))

/-! ## Support lemmas: association lists and stacking -/

theorem lookupA_eq_none_iff {κ β : Type} [DecidableEq κ]
    (m : List (κ × β)) (k : κ) :
    lookupA m k = none ↔ k ∉ m.map Prod.fst := by
  induction m with
  | nil => simp [lookupA]
  | cons e rest ih =>
      by_cases h : e.1 = k
      · simp [lookupA, h]
      · have hke : ¬ k = e.1 := fun hh => h hh.symm
        simp [lookupA, h, ih, hke]

theorem mem_of_lookupA_eq_some {κ β : Type} [DecidableEq κ]
    {m : List (κ × β)} {k : κ} {v : β} (h : lookupA m k = some v) :
    (k, v) ∈ m := by
  induction m with
  | nil => simp [lookupA] at h
  | cons e rest ih =>
      rcases e with ⟨k0, v0⟩
      by_cases he : k0 = k
      · subst he
        simp only [lookupA, if_pos, Option.some_inj] at h
        subst h
        exact List.mem_cons_self _ _
      · simp only [lookupA, he, if_false] at h
        exact List.mem_cons_of_mem _ (ih h)

theorem lookupA_of_mem_nodup {κ β : Type} [DecidableEq κ]
    {m : List (κ × β)} (hnd : (m.map Prod.fst).Nodup)
    {k : κ} {v : β} (h : (k, v) ∈ m) : lookupA m k = some v := by
  induction m with
  | nil => simp at h
  | cons e rest ih =>
      rcases List.mem_cons.mp h with h1 | h1
      · subst h1
        simp [lookupA]
      · have hk : k ∈ rest.map Prod.fst :=
          List.mem_map.mpr ⟨(k, v), h1, rfl⟩
        have he : ¬ e.1 = k := by
          intro hh
          have := (List.nodup_cons.mp hnd).1
          exact this (hh ▸ hk)
        simpa [lookupA, he] using ih (List.nodup_cons.mp hnd).2 h1

theorem offsetUpdate_gridKey (d : CardData) (i n : Nat) :
    (offsetUpdate d i n).gridKey = d.gridKey := rfl

theorem offsetUpdate_base (d : CardData) (i n : Nat) :
    (offsetUpdate d i n).baseX = d.baseX ∧
      (offsetUpdate d i n).baseY = d.baseY := ⟨rfl, rfl⟩

theorem applyOffsetsLoop_lookup_notin (n : Nat) (names : List String)
    (sp : SpriteMap) (name : String) (h : name ∉ names) :
    ∀ i, lookupA (applyOffsetsLoop n i names sp) name = lookupA sp name := by
  induction names generalizing sp with
  | nil => intro i; rfl
  | cons hd rest ih =>
      intro i
      have hne : name ≠ hd := fun hh => h (hh ▸ List.mem_cons_self hd rest)
      have hrest : name ∉ rest := fun hh => h (List.mem_cons_of_mem hd hh)
      match hl : lookupA sp hd with
      | Option.none =>
          simpa [applyOffsetsLoop, hl] using ih sp hrest (i + 1)
      | some d =>
          have := ih (setA sp hd (offsetUpdate d i n)) hrest (i + 1)
          simpa [applyOffsetsLoop, hl, this] using
            lookupA_setA_ne sp hd name (offsetUpdate d i n) hne

theorem applyOffsetsLoop_lookup_at (n : Nat) (names : List String)
    (hnd : names.Nodup) (sp : SpriteMap) (j : Nat) (name : String)
    (d : CardData) (hj : names[j]? = some name)
    (hd : lookupA sp name = some d) :
    ∀ i, lookupA (applyOffsetsLoop n i names sp) name =
      some (offsetUpdate d (i + j) n) := by
  induction names generalizing sp j with
  | nil => intro i; simp at hj
  | cons hd0 rest ih =>
      intro i
      match j with
      | 0 =>
          have hname : hd0 = name := by simpa using hj
          subst hname
          have hnotin : hd0 ∉ rest := (List.nodup_cons.mp hnd).1
          have h1 :
              lookupA (applyOffsetsLoop n (i + 1) rest
                (setA sp hd0 (offsetUpdate d i n))) hd0
                = some (offsetUpdate d i n) := by
            rw [applyOffsetsLoop_lookup_notin n rest _ hd0 hnotin]
            exact lookupA_setA_self sp hd0 (offsetUpdate d i n)
          simpa [applyOffsetsLoop, hd] using h1
      | jj + 1 =>
          have hjrest : rest[jj]? = some name := by simpa using hj
          have hmem : name ∈ rest := by
            have := List.getElem?_eq_some_iff.mp hjrest
            obtain ⟨hlt, hget⟩ := this
            exact hget ▸ List.getElem_mem hlt
          have hne : hd0 ≠ name := by
            intro hh
            exact (List.nodup_cons.mp hnd).1 (hh ▸ hmem)
          have hrestnd : rest.Nodup := (List.nodup_cons.mp hnd).2
          match hl : lookupA sp hd0 with
          | Option.none =>
              have := ih hrestnd sp jj hjrest hd (i + 1)
              simpa [applyOffsetsLoop, hl,
                Nat.add_comm, Nat.add_assoc, Nat.add_left_comm] using this
          | some d0 =>
              have hset :
                  lookupA (setA sp hd0 (offsetUpdate d0 i n)) name = some d :=
                (lookupA_setA_ne sp hd0 name _ (fun hh => hne hh.symm)).trans hd
              have := ih hrestnd (setA sp hd0 (offsetUpdate d0 i n)) jj hjrest
                hset (i + 1)
              simpa [applyOffsetsLoop, hl,
                Nat.add_comm, Nat.add_assoc, Nat.add_left_comm] using this

theorem applyStackOffsets_lookup_notin (sp : SpriteMap)
    (cardNames : List String) (name : String) (h : name ∉ cardNames) :
    lookupA (applyStackOffsets sp cardNames) name = lookupA sp name := by
  match cardNames with
  | [] => simp [applyStackOffsets]
  | [hd] =>
      have hne : ¬ hd = name := fun hh => h (by simp [hh])
      match hl : lookupA sp hd with
      | Option.none => simp [applyStackOffsets, hl]
      | some d =>
          simpa [applyStackOffsets, hl] using
            lookupA_setA_ne sp hd name _ (fun hh => hne hh.symm)
  | a :: b :: rest =>
      have hlen : ¬ (a :: b :: rest).length ≤ 1 := by simp
      simpa [applyStackOffsets, hlen] using
        applyOffsetsLoop_lookup_notin (a :: b :: rest).length
          (a :: b :: rest) sp name h 0

theorem findIdx?_eq_of_getLast?_nodup (l : List String) (x : String)
    (hnd : l.Nodup) (hl : l.getLast? = some x) :
    l.findIdx? (fun n => n = x) = some (l.length - 1) := by
  have hne : l ≠ [] := by
    intro hh
    subst hh
    simp at hl
  have hlen : 0 < l.length := List.length_pos.mpr hne
  have hget : l[l.length - 1]? = some x := by
    rwa [List.getLast?_eq_getElem?] at hl
  have hlast : l.length - 1 < l.length := by omega
  have hx : l[l.length - 1] = x := by
    have := List.getElem?_eq_some_iff.mp hget
    obtain ⟨h1, h2⟩ := this
    exact h2
  refine List.findIdx?_eq_some_iff_getElem.mpr ⟨by omega, by simp [hx], ?_⟩
  intro j hj
  simp only [decide_eq_true_eq, Bool.not_eq_true, decide_eq_false_iff_not]
  intro hh
  have hjl : j < l.length := by omega
  have heq : l[j] = l[l.length - 1] := by rw [hx, hh]
  have := (List.Nodup.getElem_inj_iff hnd).mp heq
  omega

theorem findIdx?_append_last (es : List String) (x : String)
    (h : ∀ e ∈ es, ¬ (e = x)) :
    (es ++ [x]).findIdx? (fun n => n = x) = some es.length := by
  refine List.findIdx?_eq_some_iff_getElem.mpr ⟨by simp, ?_, ?_⟩
  · simp
  · intro j hj
    have hjlt : j < es.length := by omega
    have hjlt2 : j < (es ++ [x]).length := by
      simp
      omega
    have : (es ++ [x])[j] = es[j] :=
      List.getElem_append_left hjlt
    simp only [this, decide_eq_true_eq, Bool.not_eq_true,
      decide_eq_false_iff_not]
    exact h _ (List.getElem_mem hjlt)

theorem findIdx?_some_getElem (l : List String) (x : String) (i : Nat)
    (h : l.findIdx? (fun n => n = x) = some i) : l[i]? = some x := by
  obtain ⟨hlt, hp, _⟩ := List.findIdx?_eq_some_iff_getElem.mp h
  have hx : l[i] = x := by simpa using hp
  simp [List.getElem?_eq_some_iff, hlt, hx]

theorem not_mem_eraseIdx_of_nodup (l : List String) :
    ∀ (i : Nat) (x : String), l.Nodup → l[i]? = some x →
      x ∉ l.eraseIdx i := by
  induction l with
  | nil =>
      intro i x _ h
      simp at h
  | cons a t ih =>
      intro i x hnd h
      match i with
      | 0 =>
          have : a = x := by simpa using h
          subst this
          simpa [List.eraseIdx] using (List.nodup_cons.mp hnd).1
      | j + 1 =>
          have ht : t[j]? = some x := by simpa using h
          have hxt : x ∈ t := by
            obtain ⟨hlt, hget⟩ := List.getElem?_eq_some_iff.mp ht
            exact hget ▸ List.getElem_mem hlt
          have hax : ¬ (x = a) := by
            intro hh
            exact (List.nodup_cons.mp hnd).1 (hh ▸ hxt)
          intro hmem
          rcases List.mem_cons.mp (by simpa [List.eraseIdx] using hmem)
            with h1 | h1
          · exact hax h1
          · exact ih j x (List.nodup_cons.mp hnd).2 ht h1

/-! ## Claim C2: stack offsets are centered on the base position -/

/-- C2.  For a stacking bucket of size 1, `applyStackOffsets` places the
sole card at exactly its base position with z-index 0.  For a bucket of
size n > 1, the card at index `i` is placed at its base position plus a
vertical offset `i * STACK_OFFSET - (n - 1) * STACK_OFFSET / 2` (negated
for landscape/Site cards), the x coordinate equal to the base x, and
z-index `i`; for n = 3 the offsets are `-STACK_OFFSET, 0, STACK_OFFSET`,
centered on the base position. -/
theorem stackOffsets_centered (sp : SpriteMap) (cardNames : List String)
    (hnd : cardNames.Nodup) :
    (∀ name d, cardNames = [name] → lookupA sp name = some d →
        (lookupA (applyStackOffsets sp cardNames) name).map
            (fun d' => (d'.x, d'.y, d'.zIndex))
          = some (d.baseX, d.baseY, 0)) ∧
    (1 < cardNames.length → ∀ (j : Nat) (name : String) (d : CardData),
        cardNames[j]? = some name →
        lookupA sp name = some d →
        (lookupA (applyStackOffsets sp cardNames) name).map
            (fun d' => (d'.x, d'.y, d'.zIndex))
          = some (d.baseX,
              d.baseY +
                (if d.isLandscape then
                    -((j : ℚ) * STACK_OFFSET -
                      ((cardNames.length : ℚ) - 1) * STACK_OFFSET / 2)
                  else
                    (j : ℚ) * STACK_OFFSET -
                      ((cardNames.length : ℚ) - 1) * STACK_OFFSET / 2),
              j)) := by
  constructor
  · intro name d hsingle hd
    subst hsingle
    simp [applyStackOffsets, hd, lookupA_setA_self]
  · intro hlen j name d hj hd
    have h1 : ¬ cardNames.length ≤ 1 := by omega
    have := applyOffsetsLoop_lookup_at cardNames.length cardNames hnd sp j
      name d hj hd 0
    simp only [applyStackOffsets, h1, if_false]
    rw [this]
    simp [offsetUpdate, stackIndexOffset]

/-- A concrete portrait card at base position (0, 0). -/
def witnessCardData : CardData :=
  { x := 0, y := 0, zIndex := 0, isLandscape := false, baseX := 0, baseY := 0
    gridKey := (0, 0), bounds := boundsFor 0 0 false }

def witnessSprites : SpriteMap :=
  [("a", witnessCardData), ("b", witnessCardData), ("c", witnessCardData)]

theorem stackOffsets_centered_witness :
    (lookupA (applyStackOffsets witnessSprites ["a", "b", "c"]) "c").map
        (fun d' => (d'.x, d'.y, d'.zIndex))
      = some ((0 : ℚ), (550 : ℚ), 2) := by
  have h := (stackOffsets_centered witnessSprites ["a", "b", "c"]
    (by decide)).2 (by decide) 2 "c" witnessCardData (by rfl) (by rfl)
  rw [h]
  norm_num [witnessCardData, STACK_OFFSET, STACK_OFFSET_UNITS, GRID_UNIT]

/-! ## Claim C9: `bringCardToFront` is a no-op at the top of a stack and
idempotent -/

/-- C9.  If a card is already the last element of its stacking bucket's
order list (or its bucket has size at most 1), `bringCardToFront` leaves
the whole stage state — bucket orders, sprite positions, z-indices —
unchanged; and calling `bringCardToFront` twice in a row equals calling it
once.  The hypothesis is the JS `Map`/array well-formedness of the state: a
bucket's order list has no duplicate names. -/
theorem bringCardToFront_noop_idem (s : StageState) (cardName : String)
    (hnd : ∀ d stack, lookupA s.cardSprites cardName = some d →
        lookupA s.cardStacks d.gridKey = some stack → stack.Nodup) :
    (∀ d stack, lookupA s.cardSprites cardName = some d →
        lookupA s.cardStacks d.gridKey = some stack →
        (stack.getLast? = some cardName ∨ stack.length ≤ 1) →
        bringCardToFront s cardName = s) ∧
    bringCardToFront (bringCardToFront s cardName) cardName =
      bringCardToFront s cardName := by
  have noop : ∀ d stack, lookupA s.cardSprites cardName = some d →
      lookupA s.cardStacks d.gridKey = some stack →
      (stack.getLast? = some cardName ∨ stack.length ≤ 1) →
      bringCardToFront s cardName = s := by
    intro d stack h1 h2 h3
    by_cases hlen : stack.length ≤ 1
    · simp [bringCardToFront, h1, h2, hlen]
    · rcases h3 with h3 | h3
      · have hfind := findIdx?_eq_of_getLast?_nodup stack cardName
          (hnd d stack h1 h2) h3
        have hidx : ¬ (stack.length - 1 < stack.length - 1) := by omega
        simp [bringCardToFront, h1, h2, hlen, hfind, hidx]
      · exact absurd h3 hlen
  refine ⟨noop, ?_⟩
  match h1 : lookupA s.cardSprites cardName with
  | Option.none =>
      have e1 : bringCardToFront s cardName = s := by
        simp [bringCardToFront, h1]
      rw [e1]
      exact e1
  | some d =>
      match h2 : lookupA s.cardStacks d.gridKey with
      | Option.none =>
          have e1 : bringCardToFront s cardName = s := by
            simp [bringCardToFront, h1, h2]
          rw [e1]
          exact e1
      | some stack =>
          by_cases hlen : stack.length ≤ 1
          · have e1 : bringCardToFront s cardName = s := by
              simp [bringCardToFront, h1, h2, hlen]
            rw [e1]
            exact e1
          · match h3 : stack.findIdx? (fun n => n = cardName) with
            | Option.none =>
                have e1 : bringCardToFront s cardName = s := by
                  simp [bringCardToFront, h1, h2, hlen, h3]
                rw [e1]
                exact e1
            | some idx =>
                by_cases hidx : idx < stack.length - 1
                · -- the active branch: the card is spliced to the top
                  have hstackNodup : stack.Nodup := hnd d stack h1 h2
                  have hget : stack[idx]? = some cardName :=
                    findIdx?_some_getElem stack cardName idx h3
                  have hidxlt : idx < stack.length :=
                    (List.getElem?_eq_some_iff.mp hget).1
                  have hnotin : cardName ∉ stack.eraseIdx idx :=
                    not_mem_eraseIdx_of_nodup stack idx cardName
                      hstackNodup hget
                  have herlen : (stack.eraseIdx idx).length =
                      stack.length - 1 :=
                    List.length_eraseIdx_of_lt hidxlt
                  set newStack := stack.eraseIdx idx ++ [cardName] with hns
                  have hnewlen : newStack.length = stack.length := by
                    simp [hns, herlen]
                    omega
                  have hnewlen1 : ¬ newStack.length ≤ 1 := by omega
                  have hnewNodup : newStack.Nodup := by
                    rw [hns]
                    refine List.Nodup.append
                      (List.Nodup.sublist (List.eraseIdx_sublist stack idx)
                        hstackNodup)
                      (List.nodup_singleton cardName) ?_
                    intro a ha hb
                    have : a = cardName := by simpa using hb
                    exact hnotin (this ▸ ha)
                  have e1 : bringCardToFront s cardName =
                      { s with
                          cardStacks := setA s.cardStacks d.gridKey newStack
                          cardSprites :=
                            applyStackOffsets s.cardSprites newStack } := by
                    simp [bringCardToFront, h1, h2, hlen, h3, hidx, hns]
                  rw [e1]
                  -- the second call hits the `index = length - 1` branch
                  have hat : newStack[(stack.eraseIdx idx).length]? =
                      some cardName := by
                    rw [hns]
                    exact List.getElem?_concat_length _ _
                  have hlook2 :
                      lookupA (applyStackOffsets s.cardSprites newStack)
                        cardName
                        = some (offsetUpdate d (stack.eraseIdx idx).length
                            newStack.length) := by
                    have := applyOffsetsLoop_lookup_at newStack.length
                      newStack hnewNodup s.cardSprites
                      (stack.eraseIdx idx).length cardName d hat h1 0
                    simpa [applyStackOffsets, hnewlen1] using this
                  have hfind2 : newStack.findIdx? (fun n => n = cardName) =
                      some (stack.eraseIdx idx).length := by
                    rw [hns]
                    refine findIdx?_append_last _ _ ?_
                    intro e he heq
                    exact hnotin (heq ▸ he)
                  have hidx2 : ¬ ((stack.eraseIdx idx).length <
                      newStack.length - 1) := by omega
                  have hgk : (offsetUpdate d (stack.eraseIdx idx).length
                      newStack.length).gridKey = d.gridKey := rfl
                  simp [bringCardToFront, hlook2, hgk, lookupA_setA_self,
                    hnewlen1, hfind2, hidx2]
                · have e1 : bringCardToFront s cardName = s := by
                    simp [bringCardToFront, h1, h2, hlen, h3, hidx]
                  rw [e1]
                  exact e1

def witnessStageState : StageState :=
  { cardSprites := witnessSprites
    cardStacks := [((0, 0), ["a", "b", "c"])]
    draggedCards := []
    isDragging := false }

theorem bringCardToFront_noop_idem_witness :
    bringCardToFront witnessStageState "c" = witnessStageState ∧
    bringCardToFront (bringCardToFront witnessStageState "b") "b" =
      bringCardToFront witnessStageState "b" := by
  have hw : ∀ (nm : String) (d : CardData) (stack : List String),
      lookupA witnessStageState.cardSprites nm = some d →
      lookupA witnessStageState.cardStacks d.gridKey = some stack →
      stack.Nodup := by
    intro nm d stack h1 h2
    have hmem := mem_of_lookupA_eq_some h1
    have hall : ∀ p ∈ witnessStageState.cardSprites, p.2.gridKey = (0, 0) := by
      decide
    have hgk : d.gridKey = (0, 0) := hall (nm, d) hmem
    rw [hgk] at h2
    have h0 : lookupA witnessStageState.cardStacks ((0, 0) : ℤ × ℤ) =
        some ["a", "b", "c"] := by rfl
    have hs : ["a", "b", "c"] = stack := Option.some_inj.mp (h0.symm.trans h2)
    rw [← hs]
    decide
  have h := bringCardToFront_noop_idem witnessStageState "c" (hw "c")
  have h2 := bringCardToFront_noop_idem witnessStageState "b" (hw "b")
  exact ⟨h.1 witnessCardData ["a", "b", "c"] (by rfl) (by rfl)
      (Or.inl (by rfl)), h2.2⟩

/-! ## Claim C10: the texture cache key heuristic -/

/-- C10.  `getTexture` and `getTextureSync` key their cache lookups by a
heuristic: an argument containing an underscore is used verbatim as the key
(no lowercasing or other normalization — witnessed by the key of `"A_B"`
being `"A_B"`, not its normalization `"a_b"`), and only an underscore-free
argument is keyed by `cardNameToSlug`; `preloadTextures`' candidate filter,
by contrast, always keys by `cardNameToSlug` of the name. -/
theorem textureKey_heuristic :
    (∀ s : String, s.toList.contains '_' = true → getTextureSlugArg s = s) ∧
    (∀ s : String, s.toList.contains '_' = false →
        getTextureSlugArg s = cardNameToSlug s) ∧
    (∀ (s : String) (st : LODState),
        getTextureSync s st = lookupA st.cache (getTextureSlugArg s)) ∧
    getTextureSlugArg "A_B" = "A_B" ∧
    cardNameToSlug "A_B" = "a_b" := by
  refine ⟨?_, ?_, ?_, ?_, ?_⟩
  · intro s h
    unfold getTextureSlugArg
    rw [h]
    simp
  · intro s h
    unfold getTextureSlugArg
    rw [h]
    simp
  · intro s st
    rfl
  · decide
  · decide

theorem textureKey_heuristic_witness :
    getTextureSlugArg "East_West" = "East_West" ∧
    getTextureSlugArg "Cave Trolls" = cardNameToSlug "Cave Trolls" :=
  ⟨textureKey_heuristic.1 "East_West" (by decide),
   textureKey_heuristic.2.1 "Cave Trolls" (by decide)⟩

/-! ## Claim C7: deck overlay quantities and the three-way color -/

/-- C7 (code-bug evidence).  The `'black'`/none-left branch of
`updateDeckOverlays` is unreachable: whenever the deck quantity is positive
and the collection quantity is zero, the earlier `deckQty > collectionQty`
test already yields `'red'`, so the color is always `'red'` or `'white'`;
at the failing input (deck mainboard holds one copy of "X", non-empty
collection not containing "X") the overlay for "X" is `(1, red)` where the
claim requires black. -/
theorem overlayBlack_unreachable :
    (∀ (deckQty collectionQty : Int) (hasCollection : Bool),
        overlayColorFor deckQty collectionQty hasCollection =
            QuantityColor.red ∨
        overlayColorFor deckQty collectionQty hasCollection =
            QuantityColor.white) ∧
    updateDeckOverlays ["X"]
        (some (DeckBoards.mk [DeckCard.mk "X" 1] [] [] []))
        [CollectionItem.mk "Y" 3]
      = [("X", 1, QuantityColor.red)] := by
  constructor
  · intro dq cq hc
    by_cases h1 : (hc && decide (0 < dq)) = true
    · by_cases h2 : cq < dq
      · left
        simp [overlayColorFor, h1, h2]
      · right
        have hdq : 0 < dq := by
          have := (Bool.and_eq_true hc (decide (0 < dq))).mp h1
          exact of_decide_eq_true this.2
        have hcq : ¬ cq = 0 := by omega
        simp [overlayColorFor, h1, h2, hcq]
    · right
      simp [overlayColorFor, h1]
  · decide

/-! ## Claim C8: zoom-change notifications -/

/-- C8 (counterexample).  `fitToContent` fires the zoom-change notification
even when the computed clamped scale equals the stored zoom: from zoom
`1/50` (the minimum), fitting huge bounds clamps back to `1/50` and still
notifies — contradicting "never fires when the zoom value is unchanged ...
for every camera operation including animated fit-to-content". -/
theorem fitToContent_fires_unchanged :
    (fitToContent (CameraState.mk (1/50) 800 600)
        (CameraBounds.mk 0 0 100000 100000) 100).2 = [1/50] ∧
    (fitToContent (CameraState.mk (1/50) 800 600)
        (CameraBounds.mk 0 0 100000 100000) 100).1.currentZoom = 1/50 := by
  constructor <;>
    · simp only [fitToContent, CAMERA_MIN_ZOOM, CAMERA_MAX_ZOOM]
      norm_num [min_def, max_def]

/-- C8 (amended).  The `zoomed`-event handler `handleZoomChange` is
equality-gated: it stores the new zoom and notifies exactly when the value
differs from the stored zoom, and does nothing otherwise; `fitToContent`,
however, always emits exactly one notification carrying its new (clamped)
zoom, even when that equals the previous zoom. -/
theorem zoomNotification_gating :
    (∀ (s : CameraState) (z : ℚ),
        (handleZoomChange s z).2 =
            (if z = s.currentZoom then [] else [z]) ∧
        (handleZoomChange s z).1.currentZoom =
            (if z = s.currentZoom then s.currentZoom else z)) ∧
    (∀ (s : CameraState) (b : CameraBounds) (p : ℚ),
        (fitToContent s b p).2 = [(fitToContent s b p).1.currentZoom]) := by
  constructor
  · intro s z
    by_cases h : z = s.currentZoom
    · simp [handleZoomChange, h]
    · simp [handleZoomChange, h]
  · intro s b p
    rfl

/-! ## Claim C5: the preload concurrency cap -/

/-- The schedule refuting the cap: batch 1 (20 keys) fires 8, lets 8
settle, fires 8 more, lets 4 settle, fires its last 4; its 8 workers then
exit with 8 loads still in flight, `Promise.all` resolves, and batch 2
fires its first load — 9 loads in flight, exceeding the cap of 8. -/
def preloadSchedule21 : List PoolEvent :=
  List.replicate 8 PoolEvent.fire ++
  List.replicate 8 PoolEvent.settleCur ++
  List.replicate 8 PoolEvent.fire ++
  List.replicate 4 PoolEvent.settleCur ++
  List.replicate 4 PoolEvent.fire ++
  List.replicate 8 PoolEvent.exitWorker ++
  [PoolEvent.nextBatch, PoolEvent.fire]

set_option maxRecDepth 8000 in
/-- C5 (code-bug evidence).  A `preloadTextures` call with 21 fresh keys
admits a schedule in which 9 underlying loads are simultaneously in flight:
the worker loop fires loads without awaiting them, so `Promise.all` over
the workers does not wait for the batch's loads, and the next batch starts
while up to 8 loads of the previous batch are still in flight.  The
configured cap `CONCURRENT_LOADS = 8` is exceeded. -/
theorem preload_exceeds_cap :
    (poolRun 21 preloadSchedule21).peak = 9 ∧
    CONCURRENT_LOADS < (poolRun 21 preloadSchedule21).peak := by
  constructor <;> decide

/-! ## Claim C3: request coalescing in `getTexture` -/

/-- C3.  A `getTexture` call made while a load for the same key is in
flight returns exactly the stored in-flight promise and leaves the state
untouched (no second load); consequently two consecutive `getTexture`
prologues for one fresh key invoke the underlying loader exactly once. -/
theorem getTexture_coalesces :
    (∀ (s : LODState) (key : String) (p : Nat),
        getTextureSlugArg key ∉ s.failed →
        lookupA s.cache (getTextureSlugArg key) = none →
        lookupA s.loading (getTextureSlugArg key) = some p →
        getTextureStep key s = (.awaitExisting p, s)) ∧
    (∀ (s : LODState) (key : String),
        getTextureSlugArg key ∉ s.failed →
        lookupA s.cache (getTextureSlugArg key) = none →
        lookupA s.loading (getTextureSlugArg key) = none →
        countOf ((lodStep (lodStep s (.call key)) (.call key)).loadCount)
            (getTextureSlugArg key)
          = countOf s.loadCount (getTextureSlugArg key) + 1) := by
  constructor
  · intro s key p hf hc hl
    simp [getTextureStep, hf, hc, hl]
  · intro s key hf hc hl
    have h1 : lodStep s (.call key) =
        { s with
            loading := setA s.loading (getTextureSlugArg key) s.nextPromise
            loadCount := bumpCount s.loadCount (getTextureSlugArg key)
            nextPromise := s.nextPromise + 1 } := by
      simp [lodStep, getTextureStep, hf, hc, hl]
    rw [h1]
    simp [lodStep, getTextureStep, hf, hc, lookupA_setA_self, countOf,
      bumpCount]

theorem getTexture_coalesces_witness :
    countOf ((lodStep (lodStep LODState.initial (.call "cave_trolls"))
        (.call "cave_trolls")).loadCount) (getTextureSlugArg "cave_trolls")
      = countOf LODState.initial.loadCount
          (getTextureSlugArg "cave_trolls") + 1 :=
  getTexture_coalesces.2 LODState.initial "cave_trolls"
    (by decide) (by decide) (by decide)

/-! ## Claim C4: failure memoization and log-once -/

theorem countOf_bumpCount_self (m : List (String × Nat)) (k : String) :
    countOf (bumpCount m k) k = countOf m k + 1 := by
  simp [countOf, bumpCount, lookupA_setA_self]

theorem countOf_bumpCount_ne (m : List (String × Nat)) (k k' : String)
    (h : k' ≠ k) : countOf (bumpCount m k) k' = countOf m k' := by
  simp [countOf, bumpCount, lookupA_setA_ne _ _ _ _ h]

/-- The inductive invariant behind "logged at most once per key": the log
count for a slug is at most one, a logged slug is marked failed, and a
failed slug has no load in flight. -/
def LogInv (slug : String) (s : LODState) : Prop :=
  countOf s.logCount slug ≤ 1 ∧
  (1 ≤ countOf s.logCount slug → slug ∈ s.failed) ∧
  (slug ∈ s.failed → lookupA s.loading slug = none)

theorem logInv_initial (slug : String) : LogInv slug LODState.initial := by
  refine ⟨by simp [countOf, LODState.initial, lookupA], ?_, ?_⟩
  · intro h
    simp [countOf, LODState.initial, lookupA] at h
  · intro h
    simp [LODState.initial] at h

theorem logInv_step (slug : String) (s : LODState) (ev : LODEvent)
    (h : LogInv slug s) : LogInv slug (lodStep s ev) := by
  obtain ⟨h1, h2, h3⟩ := h
  match ev with
  | .call key =>
      show LogInv slug (getTextureStep key s).2
      by_cases hf : getTextureSlugArg key ∈ s.failed
      · simpa [getTextureStep, hf] using ⟨h1, h2, h3⟩
      · match hc : lookupA s.cache (getTextureSlugArg key) with
        | some tex => simpa [getTextureStep, hf, hc] using ⟨h1, h2, h3⟩
        | Option.none =>
            match hl : lookupA s.loading (getTextureSlugArg key) with
            | some p => simpa [getTextureStep, hf, hc, hl] using ⟨h1, h2, h3⟩
            | Option.none =>
                refine ⟨?_, ?_, ?_⟩ <;>
                  simp only [getTextureStep, hf, hc, hl, if_false,
                    if_neg hf]
                · exact h1
                · exact h2
                · intro hmem
                  by_cases hk : slug = getTextureSlugArg key
                  · exact absurd (hk ▸ hmem) hf
                  · rw [lookupA_setA_ne _ _ _ _ hk]
                    exact h3 hmem
  | .settleSuccess slug' tex =>
      match hl : lookupA s.loading slug' with
      | Option.none => simpa [lodStep, hl] using ⟨h1, h2, h3⟩
      | some p =>
          refine ⟨?_, ?_, ?_⟩ <;> simp only [lodStep, hl]
          · exact h1
          · exact h2
          · intro hmem
            by_cases hk : slug = slug'
            · subst hk
              exact lookupA_eraseA_self _ _
            · rw [lookupA_eraseA_ne _ _ _ hk]
              exact h3 hmem
  | .settleFail slug' =>
      match hl : lookupA s.loading slug' with
      | Option.none => simpa [lodStep, hl] using ⟨h1, h2, h3⟩
      | some p =>
          by_cases hk : slug' = slug
          · subst hk
            have hf' : slug' ∉ s.failed := by
              intro hmem
              rw [h3 hmem] at hl
              exact Option.noConfusion hl
            have hcount0 : countOf s.logCount slug' = 0 := by
              by_contra hc0
              exact hf' (h2 (by omega))
            refine ⟨?_, ?_, ?_⟩ <;> simp only [lodStep, hl, if_neg hf']
            · rw [countOf_bumpCount_self, hcount0]
            · intro _
              exact List.mem_cons_self _ _
            · intro _
              exact lookupA_eraseA_self _ _
          · have hk' : slug ≠ slug' := fun hh => hk hh.symm
            refine ⟨?_, ?_, ?_⟩ <;> simp only [lodStep, hl]
            · by_cases hf' : slug' ∈ s.failed
              · simpa [hf'] using h1
              · simpa [hf', countOf_bumpCount_ne _ _ _ hk'] using h1
            · intro hcnt
              have : 1 ≤ countOf s.logCount slug := by
                by_cases hf' : slug' ∈ s.failed
                · simpa [hf'] using hcnt
                · simpa [hf', countOf_bumpCount_ne _ _ _ hk'] using hcnt
              exact List.mem_cons_of_mem _ (h2 this)
            · intro hmem
              have hmem' : slug ∈ s.failed := by
                rcases List.mem_cons.mp hmem with hh | hh
                · exact absurd hh hk'
                · exact hh
              rw [lookupA_eraseA_ne _ _ _ hk']
              exact h3 hmem'

theorem logInv_run (slug : String) (events : List LODEvent) :
    LogInv slug (lodRun events) := by
  suffices h : ∀ (s₀ : LODState), LogInv slug s₀ →
      LogInv slug (events.foldl lodStep s₀) from
    h LODState.initial (logInv_initial slug)
  induction events with
  | nil => intro s₀ h0; exact h0
  | cons e es ih =>
      intro s₀ h0
      exact ih (lodStep s₀ e) (logInv_step slug s₀ e h0)

/-- C4.  Once a load for a key has failed, every later `getTexture` call
for that key short-circuits: the prologue returns the placeholder and
leaves the state untouched (in particular the underlying loader is not
invoked again); the failed mark persists for the remainder of the cache
lifetime; and over any event sequence of one cache lifetime, the failure
for a key is logged at most once. -/
theorem failedLoad_memoized :
    (∀ (s : LODState) (key : String),
        getTextureSlugArg key ∈ s.failed →
        getTextureStep key s = (.placeholder, s)) ∧
    (∀ (s : LODState) (ev : LODEvent) (slug : String),
        slug ∈ s.failed → slug ∈ (lodStep s ev).failed) ∧
    (∀ (events : List LODEvent) (slug : String),
        countOf (lodRun events).logCount slug ≤ 1) := by
  refine ⟨?_, ?_, ?_⟩
  · intro s key h
    simp [getTextureStep, h]
  · intro s ev slug h
    match ev with
    | .call key =>
        show slug ∈ (getTextureStep key s).2.failed
        by_cases hf : getTextureSlugArg key ∈ s.failed
        · simpa [getTextureStep, hf] using h
        · match hc : lookupA s.cache (getTextureSlugArg key) with
          | some tex => simpa [getTextureStep, hf, hc] using h
          | Option.none =>
              match hl : lookupA s.loading (getTextureSlugArg key) with
              | some p => simpa [getTextureStep, hf, hc, hl] using h
              | Option.none => simpa [getTextureStep, hf, hc, hl] using h
    | .settleSuccess slug' tex =>
        match hl : lookupA s.loading slug' with
        | Option.none => simpa [lodStep, hl] using h
        | some p => simpa [lodStep, hl] using h
    | .settleFail slug' =>
        match hl : lookupA s.loading slug' with
        | Option.none => simpa [lodStep, hl] using h
        | some p =>
            simp only [lodStep, hl]
            exact List.mem_cons_of_mem _ h
  · intro events slug
    exact (logInv_run slug events).1

theorem failedLoad_memoized_witness :
    getTextureStep "x_y"
        { cache := [], loading := [], failed := ["x_y"], loadCount := []
          logCount := [], nextPromise := 0 }
      = (.placeholder,
         { cache := [], loading := [], failed := ["x_y"], loadCount := []
           logCount := [], nextPromise := 0 }) :=
  failedLoad_memoized.1
    { cache := [], loading := [], failed := ["x_y"], loadCount := []
      logCount := [], nextPromise := 0 } "x_y" (by decide)

/-! ## Support lemmas for `rebuildCardStacks` (claim C6) -/

/-- The `(name, gridKey)` projection of a sprite map — all that the
stack-grouping loop reads. -/
def projGK (sp : SpriteMap) : List (String × (ℤ × ℤ)) :=
  sp.map (fun e => (e.1, e.2.gridKey))

/-- The grouping loop viewed on the projection. -/
def groupPairs (ps : List (String × (ℤ × ℤ))) : StackMap :=
  ps.foldl
    (fun acc e =>
      match lookupA acc e.2 with
      | Option.none => acc ++ [(e.2, [e.1])]
      | some names => setA acc e.2 (names ++ [e.1]))
    []

theorem groupByGridKey_eq_groupPairs (sp : SpriteMap) :
    groupByGridKey sp = groupPairs (projGK sp) := by
  simp [groupByGridKey, groupPairs, projGK, List.foldl_map]

/-- The names grouped under one grid key, in sprite order. -/
def bucketNamesP (ps : List (String × (ℤ × ℤ))) (key : ℤ × ℤ) :
    List String :=
  (ps.filter (fun e => decide (e.2 = key))).map Prod.fst

theorem groupPairs_append_one (ps : List (String × (ℤ × ℤ)))
    (e : String × (ℤ × ℤ)) :
    groupPairs (ps ++ [e]) =
      (match lookupA (groupPairs ps) e.2 with
       | Option.none => groupPairs ps ++ [(e.2, [e.1])]
       | some names => setA (groupPairs ps) e.2 (names ++ [e.1])) := by
  simp [groupPairs, List.foldl_append]

theorem lookupA_groupPairs (ps : List (String × (ℤ × ℤ))) (key : ℤ × ℤ) :
    lookupA (groupPairs ps) key =
      (if bucketNamesP ps key = [] then none
       else some (bucketNamesP ps key)) := by
  induction ps using List.reverseRecOn with
  | nil => simp [groupPairs, bucketNamesP, lookupA]
  | append_singleton ps e ih =>
      rw [groupPairs_append_one]
      by_cases hk : e.2 = key
      · match hl : lookupA (groupPairs ps) e.2 with
        | Option.none =>
            rw [hk] at hl
            rw [ih] at hl
            have hempty : bucketNamesP ps key = [] := by
              by_contra hb
              rw [if_neg hb] at hl
              exact Option.noConfusion hl
            have hsplit : bucketNamesP (ps ++ [e]) key =
                bucketNamesP ps key ++ [e.1] := by
              simp [bucketNamesP, List.filter_append, hk]
            rw [lookupA_append, ih, if_pos hempty, hsplit, hempty]
            simp [lookupA, hk]
        | some names =>
            rw [hk] at hl
            rw [ih] at hl
            have hne : ¬ bucketNamesP ps key = [] := by
              by_cases hb : bucketNamesP ps key = []
              · simp [hb] at hl
              · exact hb
            have hnames : names = bucketNamesP ps key := by
              rw [if_neg hne] at hl
              exact (Option.some_inj.mp hl).symm
            rw [hk, hnames, lookupA_setA_self]
            have : bucketNamesP (ps ++ [e]) key =
                bucketNamesP ps key ++ [e.1] := by
              simp [bucketNamesP, List.filter_append, hk]
            rw [this]
            have : ¬ (bucketNamesP ps key ++ [e.1] = []) := by simp
            simp [this]
      · have hfilter : bucketNamesP (ps ++ [e]) key = bucketNamesP ps key := by
          simp [bucketNamesP, List.filter_append, hk]
        rw [hfilter]
        match hl : lookupA (groupPairs ps) e.2 with
        | Option.none =>
            rw [lookupA_append]
            have hke : ¬ (e.2 = key) := hk
            rw [ih]
            by_cases hb : bucketNamesP ps key = []
            · simp [hb, lookupA, hke]
            · simp [hb, lookupA, hke]
        | some names =>
            rw [lookupA_setA_ne _ _ _ _ (fun hh => hk hh.symm)]
            exact ih

theorem groupPairs_keys_nodup (ps : List (String × (ℤ × ℤ))) :
    ((groupPairs ps).map Prod.fst).Nodup := by
  induction ps using List.reverseRecOn with
  | nil => simp [groupPairs]
  | append_singleton ps e ih =>
      rw [groupPairs_append_one]
      match hl : lookupA (groupPairs ps) e.2 with
      | Option.none =>
          have hnot : e.2 ∉ (groupPairs ps).map Prod.fst :=
            (lookupA_eq_none_iff _ _).mp hl
          have hkeys : (groupPairs ps ++ [(e.2, [e.1])]).map Prod.fst
              = (groupPairs ps).map Prod.fst ++ [e.2] := by simp
          rw [hkeys]
          refine List.Nodup.append ih (List.nodup_singleton _) ?_
          intro a ha hb
          have hae : a = e.2 := by simpa using hb
          exact hnot (hae ▸ ha)
      | some names =>
          rw [keys_setA_of_mem _ _ _ (by rw [hl]; exact fun h => Option.noConfusion h)]
          exact ih

/-- Every grouped bucket's member list is drawn from the sprite keys. -/
theorem bucketNamesP_sublist (ps : List (String × (ℤ × ℤ)))
    (key : ℤ × ℤ) : (bucketNamesP ps key).Sublist (ps.map Prod.fst) :=
  List.Sublist.map Prod.fst (List.filter_sublist ps)

theorem mem_bucketNamesP (ps : List (String × (ℤ × ℤ))) (key : ℤ × ℤ)
    (name : String) (h : name ∈ bucketNamesP ps key) :
    (name, key) ∈ ps := by
  simp only [bucketNamesP, List.mem_map, List.mem_filter] at h
  obtain ⟨e, ⟨he, hk⟩, hn⟩ := h
  have : e = (name, key) := by
    cases e
    simp_all
  exact this ▸ he

/-- `setA` with a value sharing the stored `gridKey` leaves the projection
unchanged. -/
theorem projGK_setA (sp : SpriteMap) (name : String) (d v : CardData)
    (hl : lookupA sp name = some d) (hg : v.gridKey = d.gridKey) :
    projGK (setA sp name v) = projGK sp := by
  induction sp with
  | nil => simp [lookupA] at hl
  | cons e rest ih =>
      by_cases he : e.1 = name
      · simp only [lookupA, he, if_pos, Option.some_inj] at hl
        simp [setA, he, projGK, hg, hl]
      · simp only [lookupA, he, if_false] at hl
        simpa [setA, he, projGK] using ih hl

theorem projGK_applyOffsetsLoop (n : Nat) (names : List String)
    (sp : SpriteMap) :
    ∀ i, projGK (applyOffsetsLoop n i names sp) = projGK sp := by
  induction names generalizing sp with
  | nil => intro i; rfl
  | cons hd rest ih =>
      intro i
      match hl : lookupA sp hd with
      | Option.none => simpa [applyOffsetsLoop, hl] using ih sp (i + 1)
      | some d =>
          have h1 := ih (setA sp hd (offsetUpdate d i n)) (i + 1)
          have h2 := projGK_setA sp hd d (offsetUpdate d i n) hl rfl
          simp [applyOffsetsLoop, hl, h1, h2]

theorem projGK_applyStackOffsets (sp : SpriteMap)
    (cardNames : List String) :
    projGK (applyStackOffsets sp cardNames) = projGK sp := by
  match cardNames with
  | [] => rfl
  | [hd] =>
      match hl : lookupA sp hd with
      | Option.none => simp [applyStackOffsets, hl]
      | some d =>
          have := projGK_setA sp hd d
            { d with x := d.baseX, y := d.baseY, zIndex := 0
                     bounds := boundsFor d.baseX d.baseY d.isLandscape }
            hl rfl
          simpa [applyStackOffsets, hl] using this
  | a :: b :: rest =>
      have hlen : ¬ (a :: b :: rest).length ≤ 1 := by simp
      simpa [applyStackOffsets, hlen] using
        projGK_applyOffsetsLoop (a :: b :: rest).length (a :: b :: rest) sp 0

theorem projGK_foldStacks (buckets : StackMap) (sp : SpriteMap) :
    projGK (buckets.foldl (fun sp e => applyStackOffsets sp e.2) sp) =
      projGK sp := by
  induction buckets generalizing sp with
  | nil => rfl
  | cons b rest ih =>
      simp only [List.foldl_cons]
      rw [ih, projGK_applyStackOffsets]

theorem foldStacks_lookup_notin (buckets : StackMap) (sp : SpriteMap)
    (name : String) (h : ∀ e ∈ buckets, name ∉ e.2) :
    lookupA (buckets.foldl (fun sp e => applyStackOffsets sp e.2) sp) name =
      lookupA sp name := by
  induction buckets generalizing sp with
  | nil => rfl
  | cons b rest ih =>
      simp only [List.foldl_cons]
      rw [ih _ (fun e he => h e (List.mem_cons_of_mem _ he)),
        applyStackOffsets_lookup_notin _ _ _ (h b (List.mem_cons_self _ _))]

theorem applyStackOffsets_singleton (sp : SpriteMap) (name : String)
    (d : CardData) (hd : lookupA sp name = some d) :
    applyStackOffsets sp [name] =
      setA sp name
        { d with x := d.baseX, y := d.baseY, zIndex := 0
                 bounds := boundsFor d.baseX d.baseY d.isLandscape } := by
  simp [applyStackOffsets, hd]

theorem projGK_map_fst (sp : SpriteMap) :
    (projGK sp).map Prod.fst = sp.map Prod.fst := by
  simp [projGK]

theorem lookup_gridKey_of_mem_bucket (sp : SpriteMap)
    (hkeys : (sp.map Prod.fst).Nodup) (key : ℤ × ℤ) (name : String)
    (h : name ∈ bucketNamesP (projGK sp) key) :
    ∃ d, lookupA sp name = some d ∧ d.gridKey = key := by
  have hmem : (name, key) ∈ projGK sp := mem_bucketNamesP _ _ _ h
  simp only [projGK, List.mem_map] at hmem
  obtain ⟨e, he, heq⟩ := hmem
  rcases e with ⟨n0, d0⟩
  have h1 : n0 = name := congrArg Prod.fst heq
  have h2 : d0.gridKey = key := congrArg Prod.snd heq
  subst h1
  exact ⟨d0, lookupA_of_mem_nodup hkeys he, h2⟩

/-- The central rebuild lemma: after grouping and applying offsets to every
stack, a card listed at index `j` of the bucket of key `key` carries the
single-card reset (bucket of size ≤ 1) or the index-`j` stack offset. -/
theorem foldStacks_lookup_found (sp : SpriteMap)
    (hkeys : (sp.map Prod.fst).Nodup) (key : ℤ × ℤ) (stack : List String)
    (j : Nat) (name : String) (d : CardData)
    (hstack : lookupA (groupPairs (projGK sp)) key = some stack)
    (hj : stack[j]? = some name) (hd : lookupA sp name = some d) :
    lookupA ((groupPairs (projGK sp)).foldl
        (fun sp e => applyStackOffsets sp e.2) sp) name
      = some (if stack.length ≤ 1 then
          { d with x := d.baseX, y := d.baseY, zIndex := 0
                   bounds := boundsFor d.baseX d.baseY d.isLandscape }
        else offsetUpdate d j stack.length) := by
  have hstackval : stack = bucketNamesP (projGK sp) key := by
    rw [lookupA_groupPairs] at hstack
    by_cases hb : bucketNamesP (projGK sp) key = []
    · rw [if_pos hb] at hstack
      exact Option.noConfusion hstack
    · rw [if_neg hb] at hstack
      exact (Option.some_inj.mp hstack).symm
  have hnamem : name ∈ stack := by
    obtain ⟨hlt, hget⟩ := List.getElem?_eq_some_iff.mp hj
    exact hget ▸ List.getElem_mem hlt
  have hstacknd : stack.Nodup := by
    rw [hstackval]
    exact List.Nodup.sublist
      ((bucketNamesP_sublist _ _).trans (projGK_map_fst sp ▸ List.Sublist.refl _))
      hkeys
  have hdkey : d.gridKey = key := by
    obtain ⟨d2, hd2, hk2⟩ :=
      lookup_gridKey_of_mem_bucket sp hkeys key name (hstackval ▸ hnamem)
    rw [hd] at hd2
    exact (Option.some_inj.mp hd2) ▸ hk2
  -- locate the bucket inside the stack map and split the fold
  have hbmem : (key, stack) ∈ groupPairs (projGK sp) :=
    mem_of_lookupA_eq_some hstack
  obtain ⟨pre, post, hsplit⟩ := List.append_of_mem hbmem
  have hkeysnd := groupPairs_keys_nodup (projGK sp)
  rw [hsplit] at hkeysnd
  have hkeypre : key ∉ pre.map Prod.fst := by
    intro hmem
    rw [List.map_append, List.map_cons] at hkeysnd
    have := (List.nodup_append.mp hkeysnd).2.2
    exact this hmem (List.mem_cons_self _ _)
  have hkeypost : key ∉ post.map Prod.fst := by
    rw [List.map_append, List.map_cons] at hkeysnd
    have := (List.nodup_append.mp hkeysnd).2.1
    simpa using (List.nodup_cons.mp this).1
  have hdisj : ∀ e, e ∈ pre ∨ e ∈ post → name ∉ e.2 := by
    intro e hepp hnm
    have hein : e ∈ groupPairs (projGK sp) := by
      rw [hsplit]
      rcases hepp with he | he
      · exact List.mem_append.mpr (Or.inl he)
      · exact List.mem_append.mpr (Or.inr (List.mem_cons_of_mem _ he))
    have hekey : e.1 ≠ key := by
      intro hh
      rcases hepp with he | he
      · exact hkeypre (hh ▸ List.mem_map.mpr ⟨e, he, rfl⟩)
      · exact hkeypost (hh ▸ List.mem_map.mpr ⟨e, he, rfl⟩)
    have helook : lookupA (groupPairs (projGK sp)) e.1 = some e.2 := by
      apply lookupA_of_mem_nodup (groupPairs_keys_nodup (projGK sp))
      exact (by cases e; simpa using hein)
    have heval : e.2 = bucketNamesP (projGK sp) e.1 := by
      rw [lookupA_groupPairs] at helook
      by_cases hb : bucketNamesP (projGK sp) e.1 = []
      · rw [if_pos hb] at helook
        exact Option.noConfusion helook
      · rw [if_neg hb] at helook
        exact (Option.some_inj.mp helook).symm
    obtain ⟨d3, hd3, hk3⟩ :=
      lookup_gridKey_of_mem_bucket sp hkeys e.1 name (heval ▸ hnm)
    rw [hd] at hd3
    have hdd : d = d3 := Option.some_inj.mp hd3
    exact hekey (by rw [← hk3, ← hdd, hdkey])
  rw [hsplit, List.foldl_append, List.foldl_cons]
  have hpre : lookupA (pre.foldl (fun sp e => applyStackOffsets sp e.2) sp)
      name = some d := by
    rw [foldStacks_lookup_notin pre sp name
      (fun e he => hdisj e (Or.inl he))]
    exact hd
  have hpost : ∀ (sp' : SpriteMap),
      lookupA (post.foldl (fun sp e => applyStackOffsets sp e.2) sp') name =
        lookupA sp' name :=
    fun sp' => foldStacks_lookup_notin post sp' name
      (fun e he => hdisj e (Or.inr he))
  rw [hpost]
  by_cases hlen : stack.length ≤ 1
  · -- a singleton bucket: `stack = [name]`
    have hstack1 : stack = [name] := by
      rcases stack with _ | ⟨x, _ | ⟨y, rest⟩⟩
      · simp at hnamem
      · have hx : name = x := by simpa using hnamem
        rw [hx]
      · simp at hlen
    rw [if_pos hlen, hstack1, applyStackOffsets_singleton _ _ _ hpre,
      lookupA_setA_self]
  · rw [if_neg hlen]
    have := applyOffsetsLoop_lookup_at stack.length stack hstacknd
      (pre.foldl (fun sp e => applyStackOffsets sp e.2) sp) j name d hj hpre 0
    simpa [applyStackOffsets, hlen] using this

theorem mem_groupPairs_eval (ps : List (String × (ℤ × ℤ)))
    (e : (ℤ × ℤ) × List String) (he : e ∈ groupPairs ps) :
    e.2 = bucketNamesP ps e.1 := by
  have hl : lookupA (groupPairs ps) e.1 = some e.2 := by
    apply lookupA_of_mem_nodup (groupPairs_keys_nodup ps)
    exact he
  rw [lookupA_groupPairs] at hl
  by_cases hb : bucketNamesP ps e.1 = []
  · rw [if_pos hb] at hl
    exact Option.noConfusion hl
  · rw [if_neg hb] at hl
    exact (Option.some_inj.mp hl).symm

theorem snapDragged_lookup_notin (names : List String) (sp : SpriteMap)
    (name : String) (h : name ∉ names) :
    lookupA (snapDragged names sp) name = lookupA sp name := by
  induction names generalizing sp with
  | nil => rfl
  | cons hd rest ih =>
      have hne : name ≠ hd := fun hh => h (hh ▸ List.mem_cons_self hd rest)
      have hrest : name ∉ rest := fun hh => h (List.mem_cons_of_mem hd hh)
      match hl : lookupA sp hd with
      | Option.none =>
          simpa [snapDragged, List.foldl_cons, hl] using ih sp hrest
      | some d =>
          have h1 := ih (setA sp hd (snapUpdate d)) hrest
          have h2 := lookupA_setA_ne sp hd name (snapUpdate d) hne
          simpa [snapDragged, List.foldl_cons, hl, h2] using h1

theorem snapDragged_lookup_mem (names : List String) :
    names.Nodup → ∀ (sp : SpriteMap) (name : String), name ∈ names →
      lookupA (snapDragged names sp) name =
        (lookupA sp name).map snapUpdate := by
  induction names with
  | nil =>
      intro _ sp name h
      simp at h
  | cons hd rest ih =>
      intro hnd sp name h
      by_cases hh : name = hd
      · subst hh
        have hnotin : name ∉ rest := (List.nodup_cons.mp hnd).1
        match hl : lookupA sp name with
        | Option.none =>
            have h1 := snapDragged_lookup_notin rest sp name hnotin
            simp only [snapDragged] at h1 ⊢
            simp only [List.foldl_cons, hl]
            rw [h1, hl]
            rfl
        | some d =>
            have h1 := snapDragged_lookup_notin rest
              (setA sp name (snapUpdate d)) name hnotin
            simp only [snapDragged] at h1 ⊢
            simp only [List.foldl_cons, hl]
            rw [h1, lookupA_setA_self]
            rfl
      · have hmem : name ∈ rest := by
          rcases List.mem_cons.mp h with h1 | h1
          · exact absurd h1 hh
          · exact h1
        match hl : lookupA sp hd with
        | Option.none =>
            simpa [snapDragged, List.foldl_cons, hl] using
              ih (List.nodup_cons.mp hnd).2 sp name hmem
        | some d =>
            have h1 := ih (List.nodup_cons.mp hnd).2
              (setA sp hd (snapUpdate d)) name hmem
            have h2 := lookupA_setA_ne sp hd name (snapUpdate d) hh
            rw [h2] at h1
            simpa [snapDragged, List.foldl_cons, hl] using h1

theorem snapDragged_map_fst (names : List String) (sp : SpriteMap) :
    (snapDragged names sp).map Prod.fst = sp.map Prod.fst := by
  induction names generalizing sp with
  | nil => rfl
  | cons hd rest ih =>
      match hl : lookupA sp hd with
      | Option.none => simpa [snapDragged, List.foldl_cons, hl] using ih sp
      | some d =>
          have h1 := ih (setA sp hd (snapUpdate d))
          have h2 := keys_setA_of_mem sp hd (snapUpdate d)
            (by rw [hl]; exact fun hc => Option.noConfusion hc)
          simpa [snapDragged, List.foldl_cons, hl, h2] using h1

/-- A pixel coordinate that is an integer multiple of the grid unit. -/
def gridAligned (q : ℚ) : Prop := ∃ k : ℤ, q = (k : ℚ) * GRID_UNIT

theorem gridAligned_round (x : ℚ) :
    gridAligned ((round (x / GRID_UNIT) : ℤ) * GRID_UNIT) := ⟨_, rfl⟩

/-- Stack offsets are themselves multiples of the grid unit
(`STACK_OFFSET = 10 · GRID_UNIT`, half offsets are `5 · GRID_UNIT`), so
they keep grid-aligned positions grid-aligned. -/
theorem gridAligned_add_stackOffset (q : ℚ) (hq : gridAligned q)
    (j n : Nat) (sign : Bool) :
    gridAligned (q + (if sign then -(stackIndexOffset j n)
      else stackIndexOffset j n)) := by
  obtain ⟨k, hk⟩ := hq
  subst hk
  have hoff : stackIndexOffset j n =
      ((10 * (j : ℤ) - 5 * ((n : ℤ) - 1) : ℤ) : ℚ) * GRID_UNIT := by
    simp only [stackIndexOffset, STACK_OFFSET, STACK_OFFSET_UNITS, GRID_UNIT]
    push_cast
    ring
  cases sign
  · exact ⟨k + (10 * (j : ℤ) - 5 * ((n : ℤ) - 1)), by
      rw [if_neg (by simp), hoff]
      push_cast
      ring⟩
  · exact ⟨k - (10 * (j : ℤ) - 5 * ((n : ℤ) - 1)), by
      rw [if_pos rfl, hoff]
      push_cast
      ring⟩

theorem endCardDrag_eq (s : StageState) :
    endCardDrag s =
      { cardSprites :=
          List.foldl (fun sp e => applyStackOffsets sp e.2)
            (snapDragged s.draggedCards s.cardSprites)
            (groupPairs (projGK (snapDragged s.draggedCards s.cardSprites)))
        cardStacks :=
          groupPairs (projGK (snapDragged s.draggedCards s.cardSprites))
        draggedCards := []
        isDragging := false } := by
  simp [endCardDrag, rebuildCardStacks, groupByGridKey_eq_groupPairs]

/-! ## Claim C6: drag release snaps to the grid and rebuilds stacks -/

/-- C6.  After `endCardDrag`: every dragged card's final coordinates are
integer multiples of the grid unit (whatever sub-grid-unit delta the drag
applied), and its stacking bucket key has been recomputed as the floor
grid cell of its snapped base position; the stored stacking buckets are
exactly the grouping of the resulting sprites by grid key; and every card
of every bucket — in particular every affected bucket — carries the
rebuilt stack offset and z-index for its index in its bucket.  The
hypotheses are the JS well-formedness of the state: sprite-map keys are
unique and the dragged-card set has no duplicates. -/
theorem endCardDrag_snaps (s : StageState)
    (hkeys : (s.cardSprites.map Prod.fst).Nodup)
    (hdrag : s.draggedCards.Nodup) :
    (∀ name, name ∈ s.draggedCards →
        ∀ d', lookupA (endCardDrag s).cardSprites name = some d' →
          gridAligned d'.x ∧ gridAligned d'.y ∧
          d'.gridKey = pixelsToGrid d'.baseX d'.baseY) ∧
    ((endCardDrag s).cardStacks =
        groupByGridKey (endCardDrag s).cardSprites) ∧
    (∀ (key : ℤ × ℤ) (stack : List String) (j : Nat) (name : String)
        (d' : CardData),
        lookupA (endCardDrag s).cardStacks key = some stack →
        stack[j]? = some name →
        lookupA (endCardDrag s).cardSprites name = some d' →
        (1 < stack.length →
            d'.x = d'.baseX ∧
            d'.y = d'.baseY + (if d'.isLandscape then
                -(stackIndexOffset j stack.length)
              else stackIndexOffset j stack.length) ∧
            d'.zIndex = j) ∧
        (stack.length = 1 →
            d'.x = d'.baseX ∧ d'.y = d'.baseY ∧ d'.zIndex = 0)) := by
  have hkeys0 :
      ((snapDragged s.draggedCards s.cardSprites).map Prod.fst).Nodup := by
    rw [snapDragged_map_fst]
    exact hkeys
  rw [endCardDrag_eq]
  dsimp only
  refine ⟨?_, ?_, ?_⟩
  · -- (1) dragged cards end grid-aligned with recomputed bucket keys
    intro name hmem d' hd'
    have hlook0 :
        lookupA (snapDragged s.draggedCards s.cardSprites) name =
          (lookupA s.cardSprites name).map snapUpdate :=
      snapDragged_lookup_mem s.draggedCards hdrag s.cardSprites name hmem
    match hl : lookupA s.cardSprites name with
    | Option.none =>
        have h0 : lookupA (snapDragged s.draggedCards s.cardSprites) name =
            none := by
          rw [hlook0, hl]
          rfl
        have hnotb : ∀ e ∈
            groupPairs (projGK (snapDragged s.draggedCards s.cardSprites)),
            name ∉ e.2 := by
          intro e he hn
          have heval := mem_groupPairs_eval _ e he
          have hpm := mem_bucketNamesP _ _ _ (heval ▸ hn)
          have hkeysmem : name ∈
              (projGK (snapDragged s.draggedCards s.cardSprites)).map
                Prod.fst :=
            List.mem_map.mpr ⟨(name, e.1), hpm, rfl⟩
          rw [projGK_map_fst] at hkeysmem
          exact (lookupA_eq_none_iff _ _).mp h0 hkeysmem
        rw [foldStacks_lookup_notin _ _ name hnotb, h0] at hd'
        exact Option.noConfusion hd'
    | some d =>
        have h0 : lookupA (snapDragged s.draggedCards s.cardSprites) name =
            some (snapUpdate d) := by
          rw [hlook0, hl]
          rfl
        have hpmem : (name, (snapUpdate d).gridKey) ∈
            projGK (snapDragged s.draggedCards s.cardSprites) :=
          List.mem_map.mpr ⟨(name, snapUpdate d),
            mem_of_lookupA_eq_some h0, rfl⟩
        have hbmem : name ∈
            bucketNamesP (projGK (snapDragged s.draggedCards s.cardSprites))
              (snapUpdate d).gridKey := by
          simp only [bucketNamesP, List.mem_map, List.mem_filter]
          exact ⟨(name, (snapUpdate d).gridKey), ⟨hpmem, by simp⟩, rfl⟩
        have hbne :
            bucketNamesP (projGK (snapDragged s.draggedCards s.cardSprites))
              (snapUpdate d).gridKey ≠ [] := by
          intro hh
          rw [hh] at hbmem
          simp at hbmem
        have hstackl :
            lookupA
              (groupPairs
                (projGK (snapDragged s.draggedCards s.cardSprites)))
              (snapUpdate d).gridKey
            = some (bucketNamesP
                (projGK (snapDragged s.draggedCards s.cardSprites))
                (snapUpdate d).gridKey) := by
          rw [lookupA_groupPairs, if_neg hbne]
        obtain ⟨j, hj⟩ := List.mem_iff_getElem?.mp hbmem
        have hfound := foldStacks_lookup_found
          (snapDragged s.draggedCards s.cardSprites) hkeys0
          (snapUpdate d).gridKey _ j name (snapUpdate d) hstackl hj h0
        have hdv := Option.some_inj.mp (hd'.symm.trans hfound)
        by_cases hlen :
            (bucketNamesP
              (projGK (snapDragged s.draggedCards s.cardSprites))
              (snapUpdate d).gridKey).length ≤ 1
        · rw [if_pos hlen] at hdv
          rw [hdv]
          refine ⟨?_, ?_, ?_⟩
          · simp only [snapUpdate, snapToGrid]
            exact gridAligned_round d.x
          · simp only [snapUpdate, snapToGrid]
            exact gridAligned_round d.y
          · rfl
        · rw [if_neg hlen] at hdv
          rw [hdv]
          refine ⟨?_, ?_, ?_⟩
          · simp only [offsetUpdate, snapUpdate, snapToGrid]
            exact gridAligned_round d.x
          · simp only [offsetUpdate, snapUpdate, snapToGrid]
            exact gridAligned_add_stackOffset _ (gridAligned_round d.y) _ _ _
          · rfl
  · -- (2) the stored buckets are the grouping of the final sprites
    rw [groupByGridKey_eq_groupPairs, projGK_foldStacks]
  · -- (3) every bucket member carries its rebuilt offset and z-index
    intro key stack j name d' hstack hj hd'
    have hnamem : name ∈ stack := by
      obtain ⟨hlt, hget⟩ := List.getElem?_eq_some_iff.mp hj
      exact hget ▸ List.getElem_mem hlt
    have hstackval : stack =
        bucketNamesP (projGK (snapDragged s.draggedCards s.cardSprites))
          key := by
      rw [lookupA_groupPairs] at hstack
      by_cases hb : bucketNamesP
          (projGK (snapDragged s.draggedCards s.cardSprites)) key = []
      · rw [if_pos hb] at hstack
        exact Option.noConfusion hstack
      · rw [if_neg hb] at hstack
        exact (Option.some_inj.mp hstack).symm
    obtain ⟨d0, hd0, hk0⟩ := lookup_gridKey_of_mem_bucket
      (snapDragged s.draggedCards s.cardSprites) hkeys0 key name
      (hstackval ▸ hnamem)
    have hbne : bucketNamesP
        (projGK (snapDragged s.draggedCards s.cardSprites)) key ≠ [] := by
      intro hh
      rw [← hstackval] at hh
      rw [hh] at hnamem
      simp at hnamem
    have hstackl :
        lookupA
          (groupPairs (projGK (snapDragged s.draggedCards s.cardSprites)))
          key = some stack := by
      rw [lookupA_groupPairs, if_neg hbne, ← hstackval]
    have hfound := foldStacks_lookup_found
      (snapDragged s.draggedCards s.cardSprites) hkeys0 key stack j name d0
      hstackl hj hd0
    have hdv := Option.some_inj.mp (hd'.symm.trans hfound)
    constructor
    · intro hlen1
      have hlen' : ¬ stack.length ≤ 1 := by omega
      rw [if_neg hlen'] at hdv
      rw [hdv]
      exact ⟨rfl, rfl, rfl⟩
    · intro hlen1
      have hle : stack.length ≤ 1 := by omega
      rw [if_pos hle] at hdv
      rw [hdv]
      exact ⟨rfl, rfl, rfl⟩

def witnessDragState : StageState :=
  { cardSprites :=
      [("a", { x := 137/10, y := 20, zIndex := 0, isLandscape := false
               baseX := 137/10, baseY := 20, gridKey := (9, 9)
               bounds := boundsFor (137/10) 20 false }),
       ("b", { x := 10, y := 5, zIndex := 0, isLandscape := false
               baseX := 10, baseY := 5, gridKey := (9, 9)
               bounds := boundsFor 10 5 false })]
    cardStacks := [((9, 9), ["a", "b"])]
    draggedCards := ["a", "b"]
    isDragging := true }

theorem endCardDrag_snaps_witness :
    (endCardDrag witnessDragState).cardStacks =
      groupByGridKey (endCardDrag witnessDragState).cardSprites :=
  (endCardDrag_snaps witnessDragState (by decide) (by decide)).2.1

/-! ## Support lemmas for `calculateCardLayout` (claim C1) -/

/-- The `(name, cost)` signature of a layout output entry. -/
def sigE (e : CardLayoutInfo) : String × Int := (e.name, e.cost)

/-- The `(name, cost)` signature of an input card. -/
def sigC (c : LayoutCard) : String × Int := (c.name, c.cost)

theorem filter_map_comm {α β : Type} (l : List α) (f : α → β)
    (p : β → Bool) :
    (l.map f).filter p = (l.filter (fun a => p (f a))).map f := by
  induction l with
  | nil => rfl
  | cons a t ih =>
      by_cases h : p (f a) <;> simp [h, ih]

theorem costLe_trans : ∀ (a b c : LayoutCard),
    costLe a b → costLe b c → costLe a c := by
  intro a b c
  simp only [costLe, decide_eq_true_eq]
  omega

theorem costLe_total : ∀ (a b : LayoutCard), costLe a b || costLe b a := by
  intro a b
  simp only [costLe]
  by_cases h : a.cost ≤ b.cost
  · simp [h]
  · simp [h]
    omega

/-- Stability of the per-bucket sort, phrased through cost classes: the
cards of any one cost appear in the sorted bucket in their original
order. -/
theorem filter_mergeSort_cost (l : List LayoutCard) (v : Int) :
    (l.mergeSort costLe).filter (fun c => decide (c.cost = v)) =
      l.filter (fun c => decide (c.cost = v)) := by
  have hpair : (l.filter (fun c => decide (c.cost = v))).Pairwise
      (fun a b => costLe a b) := by
    apply List.pairwise_of_forall_mem_list
    intro a ha b hb
    have hav : a.cost = v := by
      have := (List.mem_filter.mp ha).2
      simpa using this
    have hbv : b.cost = v := by
      have := (List.mem_filter.mp hb).2
      simpa using this
    simp [costLe, hav, hbv]
  have hsub : List.Sublist (l.filter (fun c => decide (c.cost = v)))
      (l.mergeSort costLe) :=
    List.sublist_mergeSort costLe_trans costLe_total hpair
      (List.filter_sublist l)
  have hsub2 : List.Sublist (l.filter (fun c => decide (c.cost = v)))
      ((l.mergeSort costLe).filter (fun c => decide (c.cost = v))) := by
    have := List.Sublist.filter (fun c => decide (c.cost = v)) hsub
    rwa [List.filter_filter, (by
      funext c
      by_cases h : c.cost = v <;> simp [h] : (fun c : LayoutCard =>
        decide (c.cost = v) && decide (c.cost = v)) =
        fun c => decide (c.cost = v))] at this
  have hlen : ((l.mergeSort costLe).filter
      (fun c => decide (c.cost = v))).length =
      (l.filter (fun c => decide (c.cost = v))).length :=
    (List.Perm.filter _ (List.mergeSort_perm l costLe)).length_eq
  exact (List.Sublist.eq_of_length hsub2 hlen.symm).symm

theorem bucketEntries_map_sig (gx gy perRow cw ch : Nat) (isL : Bool) :
    ∀ (i : Nat) (l : List LayoutCard),
      (bucketEntries gx gy perRow cw ch isL i l).map sigE = l.map sigC := by
  intro i l
  induction l generalizing i with
  | nil => rfl
  | cons c rest ih => simp [bucketEntries, sigE, sigC, ih]

theorem mem_bucketEntries (gx gy perRow cw ch : Nat) (isL : Bool) :
    ∀ (i : Nat) (l : List LayoutCard) (e : CardLayoutInfo),
      e ∈ bucketEntries gx gy perRow cw ch isL i l →
      ∃ c ∈ l, e.thresholdGroup = c.thresholdGroup ∧ e.type = c.type := by
  intro i l
  induction l generalizing i with
  | nil =>
      intro e he
      simp [bucketEntries] at he
  | cons c rest ih =>
      intro e he
      rcases List.mem_cons.mp (by simpa [bucketEntries] using he)
        with h1 | h1
      · subst h1
        exact ⟨c, List.mem_cons_self _ _, rfl, rfl⟩
      · obtain ⟨c', hc', he'⟩ := ih (i + 1) e h1
        exact ⟨c', List.mem_cons_of_mem _ hc', he'⟩

theorem bucketEntries_filter_all (gx gy perRow cw ch : Nat) (isL : Bool)
    (g : ThresholdGroup) (t : CardType) (i : Nat) (l : List LayoutCard)
    (h : ∀ c ∈ l, c.thresholdGroup = g ∧ c.type = t) :
    (bucketEntries gx gy perRow cw ch isL i l).filter
        (fun e => decide (e.thresholdGroup = g ∧ e.type = t))
      = bucketEntries gx gy perRow cw ch isL i l := by
  rw [List.filter_eq_self]
  intro e he
  obtain ⟨c, hc, h1, h2⟩ := mem_bucketEntries gx gy perRow cw ch isL i l e he
  have hgt := h c hc
  simp [h1, h2, hgt.1, hgt.2]

theorem bucketEntries_filter_none (gx gy perRow cw ch : Nat) (isL : Bool)
    (g : ThresholdGroup) (t : CardType) (i : Nat) (l : List LayoutCard)
    (h : ∀ c ∈ l, ¬ (c.thresholdGroup = g ∧ c.type = t)) :
    (bucketEntries gx gy perRow cw ch isL i l).filter
        (fun e => decide (e.thresholdGroup = g ∧ e.type = t))
      = [] := by
  rw [List.filter_eq_nil_iff]
  intro e he
  obtain ⟨c, hc, h1, h2⟩ := mem_bucketEntries gx gy perRow cw ch isL i l e he
  have hgt := h c hc
  simp [h1, h2]
  intro hg ht
  exact hgt ⟨hg, ht⟩

theorem mem_groupCards (cards : List LayoutCard) (g : ThresholdGroup)
    (t : CardType) (c : LayoutCard) (h : c ∈ groupCards cards g t) :
    c.thresholdGroup = g ∧ c.type = t := by
  rw [groupCards_eq_filter] at h
  have := (List.mem_filter.mp h).2
  simpa using this

/-- The output restricted to one bucket, in `(name, cost)` signature. -/
def bucketSigE (gT : ThresholdGroup) (tT : CardType)
    (es : List CardLayoutInfo) : List (String × Int) :=
  List.map sigE
    (List.filter (fun e => decide (e.thresholdGroup = gT ∧ e.type = tT)) es)

theorem bucketSigE_append (gT : ThresholdGroup) (tT : CardType)
    (a b : List CardLayoutInfo) :
    bucketSigE gT tT (a ++ b) = bucketSigE gT tT a ++ bucketSigE gT tT b := by
  simp [bucketSigE]

theorem layoutTypes_fold_filter (nonAvatars : List LayoutCard)
    (g gT : ThresholdGroup) (tT : CardType) (gx : Nat) :
    ∀ (ts : List CardType) (acc : List CardLayoutInfo × Nat × Nat),
      bucketSigE gT tT
          (ts.foldl (layoutTypesStep (groupCards nonAvatars) g gx) acc).1
        = bucketSigE gT tT acc.1
          ++ (ts.map (fun t' =>
              if g = gT ∧ t' = tT then
                List.map sigC ((groupCards nonAvatars g t').mergeSort costLe)
              else [])).flatten := by
  intro ts
  induction ts with
  | nil =>
      intro acc
      simp
  | cons t' rest ih =>
      intro acc
      rw [List.foldl_cons, ih]
      have hstep :
          bucketSigE gT tT
              (layoutTypesStep (groupCards nonAvatars) g gx acc t').1
            = bucketSigE gT tT acc.1
              ++ (if g = gT ∧ t' = tT then
                  List.map sigC
                    ((groupCards nonAvatars g t').mergeSort costLe)
                else []) := by
        by_cases hemp : (groupCards nonAvatars g t').isEmpty
        · have hnil : groupCards nonAvatars g t' = [] :=
            List.isEmpty_iff.mp hemp
          simp [layoutTypesStep, hemp, hnil]
        · simp only [layoutTypesStep, hemp, if_false, Bool.false_eq_true]
          rw [bucketSigE_append]
          congr 1
          unfold bucketSigE
          by_cases hmatch : g = gT ∧ t' = tT
          · rw [if_pos hmatch]
            have hall : ∀ c ∈ (groupCards nonAvatars g t').mergeSort costLe,
                c.thresholdGroup = gT ∧ c.type = tT := by
              intro c hc
              have hmem := List.mem_mergeSort.mp hc
              have hf := mem_groupCards nonAvatars g t' c hmem
              exact ⟨hmatch.1 ▸ hf.1, hmatch.2 ▸ hf.2⟩
            rw [bucketEntries_filter_all _ _ _ _ _ _ gT tT _ _ hall,
              bucketEntries_map_sig]
          · rw [if_neg hmatch]
            have hnone : ∀ c ∈ (groupCards nonAvatars g t').mergeSort costLe,
                ¬ (c.thresholdGroup = gT ∧ c.type = tT) := by
              intro c hc hcontra
              have hmem := List.mem_mergeSort.mp hc
              have hf := mem_groupCards nonAvatars g t' c hmem
              exact hmatch ⟨hf.1 ▸ hcontra.1, hf.2 ▸ hcontra.2⟩
            rw [bucketEntries_filter_none _ _ _ _ _ _ gT tT _ _ hnone]
            rfl
      rw [hstep]
      simp [List.append_assoc]

theorem layoutGroup_filter (nonAvatars : List LayoutCard)
    (g gT : ThresholdGroup) (tT : CardType) (gx : Nat)
    (ht : tT ≠ CardType.Avatar) :
    bucketSigE gT tT (layoutGroup (groupCards nonAvatars) g gx).1
      = if g = gT then
          List.map sigC ((groupCards nonAvatars g tT).mergeSort costLe)
        else [] := by
  show bucketSigE gT tT
      (TYPE_ORDER.foldl (layoutTypesStep (groupCards nonAvatars) g gx)
        ([], 0, 0)).1 = _
  rw [layoutTypes_fold_filter nonAvatars g gT tT gx TYPE_ORDER ([], 0, 0)]
  by_cases hg : g = gT
  · cases tT with
    | Avatar => exact absurd rfl ht
    | Minion => simp [TYPE_ORDER, hg, bucketSigE]
    | Magic => simp [TYPE_ORDER, hg, bucketSigE]
    | Aura => simp [TYPE_ORDER, hg, bucketSigE]
    | Artifact => simp [TYPE_ORDER, hg, bucketSigE]
    | Site => simp [TYPE_ORDER, hg, bucketSigE]
  · simp [TYPE_ORDER, hg, bucketSigE]

theorem layoutGroups_fold_filter (nonAvatars : List LayoutCard)
    (gT : ThresholdGroup) (tT : CardType) (ht : tT ≠ CardType.Avatar) :
    ∀ (gs : List ThresholdGroup) (acc : List CardLayoutInfo × Nat),
      bucketSigE gT tT
          (gs.foldl (layoutGroupsStep nonAvatars (groupCards nonAvatars))
            acc).1
        = bucketSigE gT tT acc.1
          ++ (gs.map (fun g' =>
              if g' = gT then
                List.map sigC
                  ((groupCards nonAvatars gT tT).mergeSort costLe)
              else [])).flatten := by
  intro gs
  induction gs with
  | nil =>
      intro acc
      simp
  | cons g' rest ih =>
      intro acc
      rw [List.foldl_cons, ih]
      have hstep :
          bucketSigE gT tT
              (layoutGroupsStep nonAvatars (groupCards nonAvatars) acc g').1
            = bucketSigE gT tT acc.1
              ++ (if g' = gT then
                  List.map sigC
                    ((groupCards nonAvatars gT tT).mergeSort costLe)
                else []) := by
        by_cases hany :
            (nonAvatars.any (fun c => decide (c.thresholdGroup = g'))) = true
        · simp only [layoutGroupsStep, hany, if_true]
          rw [bucketSigE_append]
          congr 1
          rw [layoutGroup_filter nonAvatars g' gT tT acc.2 ht]
          by_cases hg : g' = gT
          · rw [if_pos hg, if_pos hg, hg]
          · rw [if_neg hg, if_neg hg]
        · simp only [layoutGroupsStep, hany, Bool.false_eq_true, if_false]
          by_cases hg : g' = gT
          · have hnil : groupCards nonAvatars gT tT = [] := by
              rw [groupCards_eq_filter, List.filter_eq_nil_iff]
              intro c hc
              simp only [decide_eq_true_eq, not_and]
              intro hgc _
              have hc2 : nonAvatars.any
                  (fun c => decide (c.thresholdGroup = g')) = true :=
                List.any_eq_true.mpr ⟨c, hc, by simp [hgc, hg]⟩
              exact hany hc2
            simp [hg, hnil]
          · simp [hg]
      rw [hstep]
      simp [List.append_assoc]

theorem avatarEntries_type (gx : Nat) (avatars : List LayoutCard)
    (e : CardLayoutInfo) (h : e ∈ avatarEntries gx avatars) :
    e.type = CardType.Avatar := by
  simp only [avatarEntries, List.mem_map] at h
  obtain ⟨p, _, hp⟩ := h
  rw [← hp]

/-- The central bucket lemma for `calculateCardLayout`: restricted to any
one non-avatar (threshold group, type) bucket, the output entries are, in
`(name, cost)` signature, exactly the stable cost-sort of the input cards
of that bucket. -/
theorem calculateCardLayout_bucket (cards : List LayoutCard)
    (gT : ThresholdGroup) (tT : CardType) (ht : tT ≠ CardType.Avatar) :
    bucketSigE gT tT (calculateCardLayout cards)
      = List.map sigC
          (List.mergeSort
            (cards.filter
              (fun c => decide (c.thresholdGroup = gT ∧ c.type = tT)))
            costLe) := by
  unfold calculateCardLayout
  simp only
  rw [bucketSigE_append]
  have havatar : ∀ (gx : Nat) (avs : List LayoutCard),
      bucketSigE gT tT (avatarEntries gx avs) = [] := by
    intro gx avs
    unfold bucketSigE
    rw [show List.filter
        (fun e => decide (e.thresholdGroup = gT ∧ e.type = tT))
        (avatarEntries gx avs) = [] from ?_]
    · rfl
    · rw [List.filter_eq_nil_iff]
      intro e he
      have htype := avatarEntries_type _ _ e he
      simp only [decide_eq_true_eq, not_and]
      intro _
      rw [htype]
      exact fun hh => ht hh.symm
  rw [havatar]
  rw [layoutGroups_fold_filter
    (cards.filter (fun c => decide (c.type ≠ CardType.Avatar))) gT tT ht
    THRESHOLD_GROUP_ORDER ([], 0)]
  have hjoin : ∀ X : List (String × Int),
      (THRESHOLD_GROUP_ORDER.map (fun g' =>
        if g' = gT then X else [])).flatten = X := by
    intro X
    cases gT <;> simp [THRESHOLD_GROUP_ORDER]
  rw [hjoin]
  have hgrp : groupCards
      (cards.filter (fun c => decide (c.type ≠ CardType.Avatar))) gT tT
      = cards.filter
          (fun c => decide (c.thresholdGroup = gT ∧ c.type = tT)) := by
    rw [groupCards_eq_filter, List.filter_filter]
    apply List.filter_congr
    intro c _
    by_cases hb : c.thresholdGroup = gT ∧ c.type = tT
    · have hna : ¬ c.type = CardType.Avatar := by
        rw [hb.2]
        exact ht
      simp [hb.1, hb.2, hna, ht]
    · simp [hb]
  rw [hgrp]
  simp [bucketSigE]

/-! ## Claim C1: per-bucket cost sort is stable -/

/-- C1.  For every input card list and every (threshold group, type)
bucket of the non-avatar grouping, the output entries of that bucket are
non-decreasing in cost, and the entries of any one cost value `v` list the
bucket's cards of that cost in their original relative input order — the
per-bucket cost sort is stable. -/
theorem layout_bucket_sorted_stable (cards : List LayoutCard)
    (gT : ThresholdGroup) (tT : CardType) (v : Int)
    (ht : tT ≠ CardType.Avatar) :
    ((calculateCardLayout cards).filter
        (fun e => decide (e.thresholdGroup = gT ∧ e.type = tT))).Pairwise
      (fun a b => a.cost ≤ b.cost) ∧
    List.map CardLayoutInfo.name
        (((calculateCardLayout cards).filter
          (fun e => decide (e.thresholdGroup = gT ∧ e.type = tT))).filter
          (fun e => decide (e.cost = v)))
      = List.map LayoutCard.name
          ((cards.filter
            (fun c => decide (c.thresholdGroup = gT ∧ c.type = tT))).filter
            (fun c => decide (c.cost = v))) := by
  have hcentral := calculateCardLayout_bucket cards gT tT ht
  unfold bucketSigE at hcentral
  constructor
  · have hsorted := List.sorted_mergeSort costLe_trans costLe_total
      (cards.filter (fun c => decide (c.thresholdGroup = gT ∧ c.type = tT)))
    have hmapped :
        ((List.mergeSort
            (cards.filter
              (fun c => decide (c.thresholdGroup = gT ∧ c.type = tT)))
            costLe).map sigC).Pairwise
          (fun p q : String × Int => p.2 ≤ q.2) := by
      refine List.Pairwise.map sigC ?_ hsorted
      intro a b hab
      simpa [costLe, sigC] using hab
    rw [← hcentral] at hmapped
    have hpw := List.pairwise_map.mp hmapped
    exact List.Pairwise.imp (fun hab => by simpa [sigE] using hab) hpw
  · have h1 : ∀ (L : List CardLayoutInfo),
        List.map CardLayoutInfo.name
          (L.filter (fun e => decide (e.cost = v)))
        = List.map Prod.fst
            ((L.map sigE).filter (fun s => decide (s.2 = v))) := by
      intro L
      rw [filter_map_comm, List.map_map]
      rfl
    have h2 : ∀ (l : List LayoutCard),
        List.map LayoutCard.name
          (l.filter (fun c => decide (c.cost = v)))
        = List.map Prod.fst
            ((l.map sigC).filter (fun s => decide (s.2 = v))) := by
      intro l
      rw [filter_map_comm, List.map_map]
      rfl
    rw [h1, hcentral, ← h2, filter_mergeSort_cost, h2]

def witnessCards : List LayoutCard :=
  [LayoutCard.mk "m1" CardType.Minion ThresholdGroup.air 2 false
      Option.none Option.none,
   LayoutCard.mk "m2" CardType.Minion ThresholdGroup.air 1 false
      Option.none Option.none,
   LayoutCard.mk "m3" CardType.Minion ThresholdGroup.air 2 false
      Option.none Option.none,
   LayoutCard.mk "w1" CardType.Minion ThresholdGroup.water 5 false
      Option.none Option.none]

theorem layout_bucket_sorted_stable_witness :
    ((calculateCardLayout witnessCards).filter
        (fun e => decide (e.thresholdGroup = ThresholdGroup.air ∧
          e.type = CardType.Minion))).Pairwise
      (fun a b => a.cost ≤ b.cost) ∧
    List.map CardLayoutInfo.name
        (((calculateCardLayout witnessCards).filter
          (fun e => decide (e.thresholdGroup = ThresholdGroup.air ∧
            e.type = CardType.Minion))).filter
          (fun e => decide (e.cost = 2)))
      = List.map LayoutCard.name
          ((witnessCards.filter
            (fun c => decide (c.thresholdGroup = ThresholdGroup.air ∧
              c.type = CardType.Minion))).filter
            (fun c => decide (c.cost = 2))) :=
  layout_bucket_sorted_stable witnessCards ThresholdGroup.air
    CardType.Minion 2 (by decide)

end CollectionManager
